import Mathlib

/-!
# Verification of the vatel request-dispatch layer

A shallow embedding, in Lean 4, of the vatel endpoint-compilation and
request-dispatch engine (`vatel.go`, `context.go`, `jsonmask/jsonmask.go`),
together with theorems settling the specification claims about it.

Conventions used throughout:
* Go machine integers are modelled as `Nat`/`Int` with explicit range checks
  where the Go code performs them (`strconv` cutoffs are spelled out as the
  Go sources spell them).
* Go strings are Lean `String`s; Go's byte-wise string comparison coincides
  with code-point lexicographic comparison because UTF-8 preserves code-point
  order, so it is modelled on `List Char`.
* Fallible Go functions return `Except`; the two run-time panics reachable
  from the dispatcher are explicit constructors of the result types.
* External collaborators that the repository only consumes through interfaces
  (token decoder, authorizer, `encoding/json.Unmarshal`, the vendored date
  codec, the `axkit/errors` error type) are modelled as function arguments or
  as small structures following their interface contracts.
-/

namespace Vatel

/-! ## Go strings: byte-lexicographic order and ASCII upper-casing -/

/-- Go `<` on strings compares byte sequences lexicographically; on UTF-8
data this equals code-point lexicographic order, modelled on `List Char`. -/
def charsLt : List Char → List Char → Bool
  | [], [] => false
  | [], _ :: _ => true
  | _ :: _, [] => false
  | a :: as, b :: bs =>
    if a.toNat < b.toNat then true
    else if b.toNat < a.toNat then false
    else charsLt as bs

/-- Go `a < b` on strings. -/
def goStrLt (a b : String) : Bool := charsLt a.data b.data

/-- Go `a <= b` on strings (used to state sortedness). -/
def goStrLe (a b : String) : Bool := goStrLt a b || a == b

/-- `strings.ToUpper`, restricted to ASCII (HTTP method names are ASCII;
Go's full Unicode case mapping is not needed by any claim). -/
def goToUpper (s : String) : String := String.mk (s.data.map Char.toUpper)

/-- Split on a single separator character (the behaviour of
`strings.Split`/`String.splitOn` for a one-character separator, spelled
out on the character list so that it evaluates by kernel reduction). -/
def splitChAux (sep : Char) : List Char → List Char → List String
  | [], acc => [String.mk acc.reverse]
  | c :: cs, acc =>
    if c = sep then String.mk acc.reverse :: splitChAux sep cs []
    else splitChAux sep cs (c :: acc)

def splitCh (sep : Char) (s : String) : List String := splitChAux sep s.data []

/-- Decimal reading of a digit-only string (the behaviour of
`String.toNat?`, spelled out on the character list). -/
def strToNatQ (s : String) : Option Nat :=
  if s.data ≠ [] ∧ s.data.all (fun c => 48 ≤ c.toNat ∧ c.toNat ≤ 57) then
    some (s.data.foldl (fun a c => a * 10 + (c.toNat - 48)) 0)
  else none

/-! ## Go `path.Clean` and `path.Join`

`Endpoint.compile` joins the configured URL prefix with the endpoint path via
`path.Join`, which runs `path.Clean` on the `/`-joined input.  `Clean` is
modelled by its documented lexical algorithm: split on `/`, drop empty and
`.` elements, resolve `..` against a stack (dropping `..` at the root). -/

def cleanStack (rooted : Bool) : List String → List String → List String
  | [], st => st.reverse
  | e :: rest, st =>
    if e = "" || e = "." then cleanStack rooted rest st
    else if e = ".." then
      match st with
      | [] => if rooted then cleanStack rooted rest [] else cleanStack rooted rest [".."]
      | a :: st' =>
        if a = ".." then cleanStack rooted rest (".." :: a :: st')
        else cleanStack rooted rest st'
    else cleanStack rooted rest (e :: st)

/-- Go `path.Clean`. -/
def goPathClean (p : String) : String :=
  if p = "" then "."
  else
    let rooted := p.data.head? = some '/'
    let elems := cleanStack rooted (splitCh '/' p) []
    let out := String.intercalate "/" elems
    if rooted then "/" ++ out
    else if out = "" then "." else out

/-- Go `path.Join` on two elements: empty elements are skipped, the rest are
joined with `/` and cleaned; all-empty input yields `""`. -/
def goPathJoin (a b : String) : String :=
  if a = "" then (if b = "" then "" else goPathClean b)
  else goPathClean (a ++ "/" ++ b)

/-! ## `strconv`: ParseBool / ParseUint / ParseInt / ParseFloat

The decoders call `strconv.ParseInt(s, 10, 64)`, `ParseUint(s, 10, 64)`,
`ParseBool(s)` and `ParseFloat(s, 64)` (or `32`).  Errors are `*NumError`
values whose `Error()` text is
`"strconv." + Func + ": parsing " + Quote(Num) + ": " + msg` with `msg` one
of `"invalid syntax"` or `"value out of range"`. -/

/-- A `strconv.NumError`: failing function, offending literal, and whether
the failure was a range error (otherwise a syntax error). -/
structure NumErr where
  fn : String
  num : String
  isRange : Bool
  deriving DecidableEq, Repr

/-- Lower-case hex digit, as Go's `strconv` uses for `\x` escapes. -/
def hexDigitCh (n : Nat) : Char :=
  if n < 10 then Char.ofNat (48 + n) else Char.ofNat (87 + n)

/-- One character of `strconv.Quote`.  Printable ASCII is kept, the standard
escapes and `\xHH` are produced as in Go; non-ASCII code points are kept
as-is (approximating `unicode.IsPrint = true`, which holds for every
character any claim touches). -/
def goQuoteChar (c : Char) : List Char :=
  let n := c.toNat
  if c = '"' then ['\\', '"']
  else if c = '\\' then ['\\', '\\']
  else if 0x20 ≤ n ∧ n ≤ 0x7E then [c]
  else if n = 0x07 then ['\\', 'a']
  else if n = 0x08 then ['\\', 'b']
  else if n = 0x0C then ['\\', 'f']
  else if n = 0x0A then ['\\', 'n']
  else if n = 0x0D then ['\\', 'r']
  else if n = 0x09 then ['\\', 't']
  else if n = 0x0B then ['\\', 'v']
  else if n < 0x20 ∨ n = 0x7F then ['\\', 'x', hexDigitCh (n / 16), hexDigitCh (n % 16)]
  else [c]

/-- `strconv.Quote`. -/
def goQuote (s : String) : String :=
  "\"" ++ String.mk ((s.data.map goQuoteChar).flatten) ++ "\""

/-- The `Error()` text of a `strconv.NumError`. -/
def NumErr.text (e : NumErr) : String :=
  "strconv." ++ e.fn ++ ": parsing " ++ goQuote e.num ++ ": " ++
    (if e.isRange then "value out of range" else "invalid syntax")

/-- `strconv.ParseBool`: the twelve accepted literals, everything else a
syntax error. -/
def goParseBool (s : String) : Except NumErr Bool :=
  if s = "1" ∨ s = "t" ∨ s = "T" ∨ s = "true" ∨ s = "TRUE" ∨ s = "True" then .ok true
  else if s = "0" ∨ s = "f" ∨ s = "F" ∨ s = "false" ∨ s = "FALSE" ∨ s = "False" then .ok false
  else .error ⟨"ParseBool", s, false⟩

/-- Go digit value of a byte: `0-9`, then (case-folded) `a-z` as 10–35;
anything else (including `_`, since the decoders pass base 10, not 0) is
rejected. -/
def digitVal (c : Char) : Option Nat :=
  let n := c.toNat
  if 48 ≤ n ∧ n ≤ 57 then some (n - 48)
  else
    let l := n ||| 0x20
    if 97 ≤ l ∧ l ≤ 122 then some (l - 97 + 10) else none

/-- `ParseUint`'s overflow cutoff for base 10, bit size 64: `maxUint64/10+1`. -/
def uintCutoff : Nat := (2 ^ 64 - 1) / 10 + 1

/-- `maxUint64`. -/
def uintMax : Nat := 2 ^ 64 - 1

def goParseUintLoop (s0 : String) : List Char → Nat → Except NumErr Nat
  | [], n => .ok n
  | c :: cs, n =>
    match digitVal c with
    | none => .error ⟨"ParseUint", s0, false⟩
    | some d =>
      if d ≥ 10 then .error ⟨"ParseUint", s0, false⟩
      else if n ≥ uintCutoff then .error ⟨"ParseUint", s0, true⟩
      else
        let n1 := n * 10 + d
        if n1 > uintMax then .error ⟨"ParseUint", s0, true⟩
        else goParseUintLoop s0 cs n1

/-- `strconv.ParseUint(s, 10, 64)`. No sign is accepted; overflow is a range
error (the clamped return value is never used by the decoders, which check
the error first). -/
def goParseUint (s : String) : Except NumErr Nat :=
  if s = "" then .error ⟨"ParseUint", s, false⟩
  else goParseUintLoop s s.data 0

/-- `strconv.ParseInt(s, 10, 64)`: strip one optional sign, parse the rest as
unsigned, re-attribute errors to `ParseInt` over the original literal, and
range-check against `int64`. -/
def goParseInt (s : String) : Except NumErr Int :=
  if s = "" then .error ⟨"ParseInt", s, false⟩
  else
    let neg := s.data.head? = some '-'
    let body : List Char :=
      if s.data.head? = some '+' ∨ s.data.head? = some '-' then s.data.tail else s.data
    match goParseUint (String.mk body) with
    | .error e => .error ⟨"ParseInt", s, e.isRange⟩
    | .ok un =>
      if ¬neg ∧ un ≥ 2 ^ 63 then .error ⟨"ParseInt", s, true⟩
      else if neg ∧ un > 2 ^ 63 then .error ⟨"ParseInt", s, true⟩
      else .ok (if neg then -(un : Int) else (un : Int))

/-! ### `strconv.ParseFloat`: syntax acceptance

Only the syntax decision of `ParseFloat` matters to the claims (a failing
parse must surface as an error and leave the field unassigned); the IEEE
value is kept abstract as the accepted literal, and exponent-overflow range
errors are not modelled (floating-point semantics are out of scope). -/

def isDecDigit (c : Char) : Bool := 48 ≤ c.toNat && c.toNat ≤ 57

def lowerCh (c : Char) : Char :=
  if 65 ≤ c.toNat ∧ c.toNat ≤ 90 then Char.ofNat (c.toNat + 32) else c

def isHexDigitCh (c : Char) : Bool :=
  isDecDigit c || (97 ≤ (lowerCh c).toNat && (lowerCh c).toNat ≤ 102)

/-- Mantissa scan of `readFloat`: digits of the base, underscores, and at
most one dot; returns the unconsumed tail, whether a digit was seen, and
whether an underscore was seen. -/
def mantLoop (hex : Bool) : List Char → Bool → Bool → Bool → List Char × Bool × Bool
  | [], _, sd, un => ([], sd, un)
  | c :: cs, sawdot, sd, un =>
    if c = '_' then mantLoop hex cs sawdot sd true
    else if c = '.' then
      if sawdot then (c :: cs, sd, un) else mantLoop hex cs true sd un
    else if (if hex then isHexDigitCh c else isDecDigit c) then mantLoop hex cs sawdot true un
    else (c :: cs, sd, un)

/-- Exponent scan: optional sign, at least one decimal digit, then digits and
underscores to the end of the literal (anything left over fails the
full-consumption check of `ParseFloat`).  Returns acceptance and whether an
underscore was seen. -/
def expAccept (cs : List Char) : Bool × Bool :=
  match cs with
  | [] => (false, false)
  | _ =>
    let cs1 := match cs with
      | '+' :: r => r
      | '-' :: r => r
      | r => r
    match cs1 with
    | [] => (false, false)
    | c :: _ =>
      if ¬isDecDigit c then (false, false)
      else
        let consumed := cs1.takeWhile (fun ch => isDecDigit ch || ch = '_')
        let rest := cs1.dropWhile (fun ch => isDecDigit ch || ch = '_')
        (rest.isEmpty, consumed.any (· = '_'))

/-- `strconv`'s `underscoreOK`: every underscore must follow a digit (or the
base prefix) and be followed by a digit.  The `saw` argument tracks the Go
implementation's last-seen class: `^` start, `0` digit/prefix, `_`
underscore, `!` other. -/
def underscoreOKLoop (hex : Bool) : List Char → Char → Bool
  | [], saw => saw ≠ '_'
  | c :: cs, saw =>
    if isDecDigit c || (hex && isHexDigitCh c) then underscoreOKLoop hex cs '0'
    else if c = '_' then
      if saw ≠ '0' then false else underscoreOKLoop hex cs '_'
    else if saw = '_' then false
    else underscoreOKLoop hex cs '!'

def underscoreOK (s : String) : Bool :=
  let cs := match s.data with
    | '+' :: r => r
    | '-' :: r => r
    | r => r
  match cs with
  | '0' :: x :: r =>
    if lowerCh x = 'b' ∨ lowerCh x = 'o' ∨ lowerCh x = 'x' then
      underscoreOKLoop (lowerCh x = 'x') r '0'
    else underscoreOKLoop false cs '^'
  | _ => underscoreOKLoop false cs '^'

/-- `ParseFloat`'s special values: `inf`/`infinity` with optional sign, and
unsigned `nan`, case-insensitively, consuming the whole literal. -/
def specialAccept (s : String) : Bool :=
  let l := String.mk (s.data.map lowerCh)
  l = "inf" ∨ l = "+inf" ∨ l = "-inf" ∨
    l = "infinity" ∨ l = "+infinity" ∨ l = "-infinity" ∨ l = "nan"

/-- Numeric syntax of `ParseFloat` (decimal and hex, with underscores as Go
accepts them), requiring the whole literal to be consumed. -/
def numAccept (s : String) : Bool :=
  let cs1 := match s.data with
    | '+' :: r => r
    | '-' :: r => r
    | r => r
  -- hex prefix `0x`/`0X` requires at least one further character
  let hex := match cs1 with
    | '0' :: x :: _ :: _ => lowerCh x == 'x'
    | _ => false
  let scanStart := if hex then cs1.drop 2 else cs1
  match mantLoop hex scanStart false false false with
  | (rest, sawdigits, un1) =>
    if ¬sawdigits then false
    else
      let expChar := if hex then 'p' else 'e'
      let (acc, un2) :=
        match rest with
        | [] => (!hex, false)
        | c :: r => if lowerCh c = expChar then expAccept r else (false, false)
      if !acc then false
      else if un1 || un2 then underscoreOK s else true

/-- The abstract result of a successful `ParseFloat`: the accepted literal
(IEEE semantics out of scope). -/
structure GoFloat where
  lit : String
  deriving DecidableEq, Repr

/-- `strconv.ParseFloat(s, 64)` (and `32`: the syntax decision is the same),
modulo unmodelled exponent-overflow range errors. -/
def goParseFloat (s : String) : Except NumErr GoFloat :=
  if specialAccept s ∨ numAccept s then .ok ⟨s⟩
  else .error ⟨"ParseFloat", s, false⟩

end Vatel

namespace Vatel

/-! ## A JSON value model

The masker rewrites JSON byte buffers through the external `gjson`/`sjson`
libraries; the dispatcher serializes controller results through
`encoding/json`.  Buffers are modelled as parsed JSON values (numbers kept
as uninterpreted literals), and the byte image of a buffer is the compact
rendering below. -/

inductive Json where
  | null
  | bool (b : Bool)
  | num (lit : String)
  | str (s : String)
  | arr (elems : List Json)
  | obj (members : List (String × Json))
  deriving Inhabited, Repr

/-- One character of `encoding/json`'s string escaping (standard escapes,
`\u00XX` for other controls, HTML-escaped `<`, `>`, `&` as `json.Marshal`
does by default). -/
def jsonQuoteChar (c : Char) : List Char :=
  let n := c.toNat
  if c = '"' then ['\\', '"']
  else if c = '\\' then ['\\', '\\']
  else if n = 0x0A then ['\\', 'n']
  else if n = 0x0D then ['\\', 'r']
  else if n = 0x09 then ['\\', 't']
  else if c = '<' then ['\\', 'u', '0', '0', '3', 'c']
  else if c = '>' then ['\\', 'u', '0', '0', '3', 'e']
  else if c = '&' then ['\\', 'u', '0', '0', '2', '6']
  else if n < 0x20 then ['\\', 'u', '0', '0', hexDigitCh (n / 16), hexDigitCh (n % 16)]
  else [c]

def jsonQuote (s : String) : String :=
  "\"" ++ String.mk ((s.data.map jsonQuoteChar).flatten) ++ "\""

mutual

/-- Compact rendering of a JSON value (the byte image written to the wire). -/
def renderJson : Json → String
  | .null => "null"
  | .bool true => "true"
  | .bool false => "false"
  | .num l => l
  | .str s => jsonQuote s
  | .arr es => "[" ++ String.intercalate "," (renderArr es) ++ "]"
  | .obj ms => "\x7b" ++ String.intercalate "," (renderObj ms) ++ "\x7d"

def renderArr : List Json → List String
  | [] => []
  | e :: es => renderJson e :: renderArr es

def renderObj : List (String × Json) → List String
  | [] => []
  | (k, v) :: ms => (jsonQuote k ++ ":" ++ renderJson v) :: renderObj ms

end

/-! ## The `axkit/errors` error values

`axkit/errors` is an external module consumed through `*CatchedError`
values; the dispatcher reads `Last().StatusCode`/`Last().Message` and
renders bodies with `errors.ToJSON`.  A `CatchedError` is modelled by the
three attributes the dispatcher consumes; a generic Go `error` is either a
catched error or a plain message. -/

structure CatchedError where
  message : String
  code : String
  statusCode : Nat
  deriving DecidableEq, Repr

inductive GoErr where
  | catched (ce : CatchedError)
  | plain (msg : String)
  deriving DecidableEq, Repr

/-- `err.Error()`. -/
def GoErr.text : GoErr → String
  | .catched ce => ce.message
  | .plain m => m

/-- `errors.ValidationFailed(msg)`: a 4xx validation error (spec §7). -/
def validationFailed (msg : String) : CatchedError := ⟨msg, "", 400⟩

/-- `errors.InvalidRequestBody(msg)`: a 400 client error. -/
def invalidRequestBody (msg : String) : CatchedError := ⟨msg, "", 400⟩

/-- `errors.Forbidden()`: a 403 error. -/
def forbiddenErr : CatchedError := ⟨"forbidden", "", 403⟩

/-- `errors.Catch(err)`: wrap any error as a catched error (default status
500 per spec §4.4); `.Msg`/`.StatusCode` rewrite the fields. -/
def catchErr (e : GoErr) : CatchedError :=
  match e with
  | .catched ce => ce
  | .plain m => ⟨m, "", 500⟩

/-- `var ErrAuthorizationHeaderMissed = errors.New("header Authorization
missed").Code("VTL-0001").StatusCode(401).Critical()` (vatel.go). -/
def ErrAuthorizationHeaderMissed : CatchedError :=
  ⟨"header Authorization missed", "VTL-0001", 401⟩

/-- `var ErrAccessTokenRevoked = errors.New("access token
revoked").Code("VTL-0002").StatusCode(401).Critical()` (vatel.go). -/
def ErrAccessTokenRevoked : CatchedError :=
  ⟨"access token revoked", "VTL-0002", 401⟩

/-- The status code `writeErrorResponse` derives from an error: the catched
error's status, 500 for anything else. -/
def errStatus : GoErr → Nat
  | .catched ce => ce.statusCode
  | .plain _ => 500

/-- The JSON body `errors.ToJSON(err, ff)` produces, per the §6 contract:
`{"message":string,"code":string?,...}`, with the verbose stack/field
detail abstracted as one marker member. -/
def errorBodyJson (e : GoErr) (verbose : Bool) : Json :=
  match e with
  | .catched ce =>
    Json.obj ([("message", .str ce.message)] ++
      (if ce.code = "" then [] else [("code", .str ce.code)]) ++
      (if verbose then [("verbose", .bool true)] else []))
  | .plain m => Json.obj [("message", .str m)]

end Vatel

namespace Vatel

/-! ## gjson/sjson path operations

`jsonmask.mask` addresses buffer locations with dotted gjson-style paths
(`"user.firstName"`, `"emails.#"`, `"emails.0.email"`).  A path splits on
`.`; a component is the array-count wildcard `#`, a numeric index, or a
plain key.  On objects a numeric component addresses the literal key; on
arrays it is an index.  `sjson` modification paths reject the `#`
wildcard, which is why `mask` expands per-element deletions by index. -/

inductive PathC where
  | key (s : String)
  | idx (n : Nat)
  | count
  deriving DecidableEq, Repr

def parseComp (s : String) : PathC :=
  if s = "#" then .count
  else match strToNatQ s with
    | some n => .idx n
    | none => .key s

def parsePath (s : String) : List PathC := (splitCh '.' s).map parseComp

/-- First-match object member deletion (gjson resolves the first matching
key). -/
def objDelFirst (k : String) : List (String × Json) → List (String × Json)
  | [] => []
  | kv :: rest => if kv.1 = k then rest else kv :: objDelFirst k rest

/-- Rewrite the first member with key `k` through `f`; missing keys leave
the list unchanged but are reported so the caller can treat them as a
no-op. -/
def objModFirst (k : String) (f : Json → Except String Json) :
    List (String × Json) → Except String (List (String × Json))
  | [] => .ok []
  | kv :: rest =>
    if kv.1 = k then (f kv.2).map (fun v' => (kv.1, v') :: rest)
    else (objModFirst k f rest).map (kv :: ·)

def listModAt (n : Nat) (f : Json → Except String Json) :
    List Json → Except String (List Json)
  | [] => .ok []
  | e :: rest =>
    match n with
    | 0 => (f e).map (· :: rest)
    | m + 1 => (listModAt m f rest).map (e :: ·)

/-- `sjson.DeleteBytes` on a parsed path: deletes the addressed member (or
array element for an index-final path); a missing path is a no-op; the `#`
wildcard is not a legal sjson modification path. -/
def jsonDelete : List PathC → Json → Except String Json
  | [], j => .ok j
  | .count :: _, _ => .error "array access character not allowed in path"
  | [.key k], .obj ms => .ok (.obj (objDelFirst k ms))
  | [.idx n], .obj ms => .ok (.obj (objDelFirst (toString n) ms))
  | [.idx n], .arr es => .ok (.arr (es.eraseIdx n))
  | .key k :: p :: ps, .obj ms => (objModFirst k (jsonDelete (p :: ps)) ms).map .obj
  | .idx n :: p :: ps, .obj ms =>
    (objModFirst (toString n) (jsonDelete (p :: ps)) ms).map .obj
  | .idx n :: p :: ps, .arr es => (listModAt n (jsonDelete (p :: ps)) es).map .arr
  | _, j => .ok j

/-- `gjson.GetBytes` on a parsed path (only the forms `mask` uses: key and
index descent, and a final `#` returning an array's length).  `none` means
`!Exists()`. -/
def jsonGet : List PathC → Json → Option Json
  | [], j => some j
  | [.count], .arr es => some (.num (toString es.length))
  | .key k :: ps, .obj ms =>
    match ms.find? (fun kv => kv.1 = k) with
    | some kv => jsonGet ps kv.2
    | none => none
  | .idx n :: ps, .obj ms =>
    match ms.find? (fun kv => kv.1 = toString n) with
    | some kv => jsonGet ps kv.2
    | none => none
  | .idx n :: ps, .arr es =>
    match es.get? n with
    | some e => jsonGet ps e
    | none => none
  | _, _ => none

/-- `gjson.Result.String()` for the result of a get. -/
def resultString : Option Json → String
  | none => ""
  | some .null => ""
  | some (.bool true) => "true"
  | some (.bool false) => "false"
  | some (.num l) => l
  | some (.str s) => s
  | some j => renderJson j

/-- `sjson.SetBytes` with a string value: replace the addressed member,
creating missing object members along the path and padding arrays with
`null` as sjson does; the `#` wildcard is rejected. -/
def jsonSet : List PathC → String → Json → Except String Json
  | [], v, _ => .ok (.str v)
  | .count :: _, _, _ => .error "array access character not allowed in path"
  | .key k :: ps, v, .obj ms =>
    if (ms.find? (fun kv => kv.1 = k)).isSome then
      (objModFirst k (jsonSet ps v) ms).map .obj
    else
      (jsonSet ps v .null).map (fun nv => .obj (ms ++ [(k, nv)]))
  | .idx n :: ps, v, .obj ms =>
    if (ms.find? (fun kv => kv.1 = toString n)).isSome then
      (objModFirst (toString n) (jsonSet ps v) ms).map .obj
    else
      (jsonSet ps v .null).map (fun nv => .obj (ms ++ [(toString n, nv)]))
  | .idx n :: ps, v, .arr es =>
    if n < es.length then (listModAt n (jsonSet ps v) es).map .arr
    else
      (jsonSet ps v .null).map
        (fun nv => .arr (es ++ List.replicate (n - es.length) .null ++ [nv]))
  | .key k :: ps, v, _ => (jsonSet ps v .null).map (fun nv => .obj [(k, nv)])
  | .idx n :: ps, v, _ => (jsonSet ps v .null).map (fun nv => .obj [(toString n, nv)])

/-! ## jsonmask: field metadata and `Mask`

`jsonmask.Field` is `{name, tag, child}`; `child` is non-empty exactly for
slice-of-struct fields (nested structures are flattened into dotted
names by the `fields` builder). -/

inductive JField where
  | mk (name tag : String) (child : List JField)

def JField.name : JField → String
  | .mk n _ _ => n

def JField.tag : JField → String
  | .mk _ t _ => t

def JField.child : JField → List JField
  | .mk _ _ c => c

/-- A `RawJsonMask`: the registry of named masking functions added with
`AddFunc`. -/
structure RawJsonMask where
  fn : List (String × (String → String))

def RawJsonMask.lookupFn (jm : RawJsonMask) (tag : String) : Option (String → String) :=
  (jm.fn.find? (fun p => p.1 = tag)).map Prod.snd

/-- The per-index deletion loop of the slice `"-"` case:
`for j := 0; j < n; j++ { buf, err = sjson.DeleteBytes(buf, parentAttr +
"." + itoa(j) + "." + name) }`. -/
def sliceDelLoop (parentAttr nm : String) (n : Nat) (buf : Json) : Except String Json :=
  (List.range n).foldlM
    (fun b j => jsonDelete (parsePath (parentAttr ++ "." ++ toString j ++ "." ++ nm)) b) buf

/-- One leaf step of `mask` for a field with no children: skip empty tags,
delete on `"-"` (expanding slice context by index), apply a registered
masking function otherwise, and silently skip unregistered names. -/
def maskLeaf (jm : RawJsonMask) (parentAttr attr : String) (f : JField) (isSlice : Bool)
    (buf : Json) : Except String Json :=
  if f.tag = "" then .ok buf
  else if f.tag = "-" then
    if !isSlice then jsonDelete (parsePath attr) buf
    else
      match jsonGet (parsePath (parentAttr ++ ".#")) buf with
      | none => .ok buf
      | some (.num l) => sliceDelLoop parentAttr f.name ((strToNatQ l).getD 0) buf
      | some _ => .ok buf
  else
    match jm.lookupFn f.tag with
    | none => .ok buf
    | some fn =>
      let v := jsonGet (parsePath attr) buf
      jsonSet (parsePath attr) (fn (resultString v)) buf

/-- `RawJsonMask.mask(buf, parentAttr, r, isSlice)` on a parsed buffer. -/
def maskVal (jm : RawJsonMask) : List JField → String → Bool → Json → Except String Json
  | [], _, _, buf => .ok buf
  | .mk nm tg ch :: rest, parentAttr, isSlice, buf =>
    let attr := if isSlice then parentAttr ++ ".#." ++ nm else nm
    if ch.isEmpty then
      match maskLeaf jm parentAttr attr (.mk nm tg ch) isSlice buf with
      | .error e => .error e
      | .ok buf' => maskVal jm rest parentAttr isSlice buf'
    else
      match maskVal jm ch attr true buf with
      | .error e => .error e
      | .ok buf' => maskVal jm rest parentAttr isSlice buf'

/-- `RawJsonMask.Mask(src, fields)`: copy the buffer, then rewrite the
copy. The heap model below makes the copy explicit; on values the copy is
the identity. -/
def Mask (jm : RawJsonMask) (src : Json) (fields : List JField) : Except String Json :=
  maskVal jm fields "" false src

end Vatel

namespace Vatel

/-! ## `Mask` with an explicit buffer heap (for the frame property)

`Mask` allocates a fresh destination buffer, copies the source bytes into
it, and hands only the copy to `mask`; every sjson rewrite goes through the
buffer `mask` was given.  To state that the source buffer is untouched, the
byte buffers live in a heap (a list of buffer contents indexed by buffer
id) and every rewrite writes through the destination id — a worst-case
model in which sjson may rewrite its input buffer in place. -/

def heapRead (h : List Json) (b : Nat) : Json := h.getD b .null

def heapWrite (h : List Json) (b : Nat) (v : Json) : List Json := h.set b v

def sliceDelLoopH (parentAttr nm : String) (b : Nat) : List Nat → List Json → List Json × Option String
  | [], h => (h, none)
  | j :: js, h =>
    match jsonDelete (parsePath (parentAttr ++ "." ++ toString j ++ "." ++ nm)) (heapRead h b) with
    | .error e => (h, some e)
    | .ok v => sliceDelLoopH parentAttr nm b js (heapWrite h b v)

/-- The leaf step of `mask`, reading and writing buffer `b`. -/
def maskLeafH (jm : RawJsonMask) (parentAttr attr : String) (f : JField) (isSlice : Bool)
    (h : List Json) (b : Nat) : List Json × Option String :=
  if f.tag = "" then (h, none)
  else if f.tag = "-" then
    if !isSlice then
      match jsonDelete (parsePath attr) (heapRead h b) with
      | .error e => (h, some e)
      | .ok v => (heapWrite h b v, none)
    else
      match jsonGet (parsePath (parentAttr ++ ".#")) (heapRead h b) with
      | none => (h, none)
      | some (.num l) => sliceDelLoopH parentAttr f.name b (List.range ((strToNatQ l).getD 0)) h
      | some _ => (h, none)
  else
    match jm.lookupFn f.tag with
    | none => (h, none)
    | some fn =>
      let v := jsonGet (parsePath attr) (heapRead h b)
      match jsonSet (parsePath attr) (fn (resultString v)) (heapRead h b) with
      | .error e => (h, some e)
      | .ok v' => (heapWrite h b v', none)

/-- `mask` over the heap: identical control flow to `maskVal`, threading a
buffer id instead of a value. -/
def maskHeap (jm : RawJsonMask) : List JField → String → Bool → List Json → Nat → List Json × Option String
  | [], _, _, h, _ => (h, none)
  | .mk nm tg ch :: rest, parentAttr, isSlice, h, b =>
    let attr := if isSlice then parentAttr ++ ".#." ++ nm else nm
    if ch.isEmpty then
      match maskLeafH jm parentAttr attr (.mk nm tg ch) isSlice h b with
      | (h', some e) => (h', some e)
      | (h', none) => maskHeap jm rest parentAttr isSlice h' b
    else
      match maskHeap jm ch attr true h b with
      | (h', some e) => (h', some e)
      | (h', none) => maskHeap jm rest parentAttr isSlice h' b

/-- `Mask(src, fields)` at the heap level: `dst := make([]byte, len(src));
copy(dst, src); return jm.mask(dst, "", fields, false)`.  Returns the final
heap, the id of the fresh destination buffer, and the error if any. -/
def MaskProg (jm : RawJsonMask) (h : List Json) (src : Nat) (fields : List JField) :
    List Json × Nat × Option String :=
  let dst := h.length
  let h1 := h ++ [heapRead h src]
  let (h2, err) := maskHeap jm fields "" false h1 dst
  (h2, dst, err)

/-! ## The field decoder

Destination structures reached through `Paramer.Param()` /
`Inputer.Input()` are reflected field lists.  A field's Go value is one of
the kinds the decoders switch on; everything else is `vother` (the switch
default).  Widths below 64 bits share one constructor (`reflect`'s
`SetInt`/`SetUint` truncation for narrow fields is not modelled; no claim
concerns it). -/

inductive FieldVal where
  | vint (i : Int)
  | vuint (n : Nat)
  | vstr (s : String)
  | vbool (b : Bool)
  | vfloat (f : GoFloat)
  | vstrList (l : List String)
  | vdate (d : Nat)
  | vother
  deriving DecidableEq, Repr

/-- The zero Go value of the same kind, materialized when a nil pointer
field is lazily allocated. -/
def FieldVal.zero : FieldVal → FieldVal
  | .vint _ => .vint 0
  | .vuint _ => .vuint 0
  | .vstr _ => .vstr ""
  | .vbool _ => .vbool false
  | .vfloat _ => .vfloat ⟨"0"⟩
  | .vstrList _ => .vstrList []
  | .vdate _ => .vdate 0
  | .vother => .vother

/-- A dynamic value stored in the request context's user-value bag: path
parameters are strings; middleware may store anything. -/
inductive GoVal where
  | str (s : String)
  | other
  deriving DecidableEq, Repr

def lookupUV (uv : List (String × GoVal)) (k : String) : Option GoVal :=
  (uv.find? (fun p => p.1 = k)).map Prod.snd

/-- A destination field of a `Param()` structure: settability, the `param`
tag, and the current value. -/
structure PField where
  canSet : Bool
  tag : String
  val : FieldVal
  deriving DecidableEq, Repr

/-- A log attribute: key and logged value (`none` for a nil byte slice). -/
abbrev LogE := String × Option String

/-- Result of `decodeParams`: the one reachable dispatcher panic, a
validation error, or success; each carries the destination fields as left
by the in-place decode and the log attributes added. -/
inductive DPRes where
  | panicked (msg : String) (fields : List PField) (log : List LogE)
  | err (e : CatchedError) (fields : List PField) (log : List LogE)
  | ok (fields : List PField) (log : List LogE)
  deriving DecidableEq, Repr

def DPRes.consF (f : PField) : DPRes → DPRes
  | .panicked m fs lg => .panicked m (f :: fs) lg
  | .err e fs lg => .err e (f :: fs) lg
  | .ok fs lg => .ok (f :: fs) lg

def DPRes.consL (en : LogE) : DPRes → DPRes
  | .panicked m fs lg => .panicked m fs (en :: lg)
  | .err e fs lg => .err e fs (en :: lg)
  | .ok fs lg => .ok fs (en :: lg)

/-- `decodeParams(ctx, param, zc)`: walk the fields; skip unsettable and
untagged ones; `ctx.UserValue(tag)` must be a string or the function
panics (`"non string param"`); parse according to the field's Go type,
returning `errors.ValidationFailed(err.Error())` on a parse failure (the
message text is kept verbatim, including the source's `"unsuppoted go
type"` typo). -/
def decodeParams (uv : List (String × GoVal)) : List PField → DPRes
  | [] => .ok [] []
  | f :: rest =>
    if !f.canSet then (decodeParams uv rest).consF f
    else if f.tag = "" then (decodeParams uv rest).consF f
    else
      match lookupUV uv f.tag with
      | some (GoVal.str v) =>
        let en : LogE := (f.tag, some v)
        match f.val with
        | .vint _ =>
          match goParseInt v with
          | .error pe => .err (validationFailed pe.text) (f :: rest) [en]
          | .ok i => ((decodeParams uv rest).consF { f with val := .vint i }).consL en
        | .vuint _ =>
          match goParseUint v with
          | .error pe => .err (validationFailed pe.text) (f :: rest) [en]
          | .ok n => ((decodeParams uv rest).consF { f with val := .vuint n }).consL en
        | .vstr _ => ((decodeParams uv rest).consF { f with val := .vstr v }).consL en
        | .vbool _ =>
          match goParseBool v with
          | .error pe => .err (validationFailed pe.text) (f :: rest) [en]
          | .ok b => ((decodeParams uv rest).consF { f with val := .vbool b }).consL en
        | .vfloat _ =>
          match goParseFloat v with
          | .error pe => .err (validationFailed pe.text) (f :: rest) [en]
          | .ok g => ((decodeParams uv rest).consF { f with val := .vfloat g }).consL en
        | .vstrList _ => ((decodeParams uv rest).consF f).consL en
        | .vdate _ => .err (validationFailed "unsuppoted go type") (f :: rest) [en]
        | .vother => .err (validationFailed "unsuppoted go type") (f :: rest) [en]
      | _ => .panicked "non string param" (f :: rest) []

end Vatel

namespace Vatel

/-! ## `decodeURLQuery`

A query destination structure is a field list; a non-pointer nested
structure field is recursed into with the same query source; pointer
fields are lazily allocated when their key is present; a field whose
declared type is named `Date` and whose value is a `date.Date` goes
through the vendored date codec (modelled as the collaborator function
`dateP`).  Parse failures return the raw `strconv` error (unwrapped); the
switch default returns `errors.ValidationFailed("unsupported type")`. -/

inductive QF where
  | leaf (canSet : Bool) (tag : String) (isPtr : Bool) (ptrNil : Bool) (nameIsDate : Bool)
      (val : FieldVal)
  | nested (canSet : Bool) (fields : List QF)

/-- Result of `decodeURLQuery`: error or success, with the in-place updated
fields and the log attributes (`zc.Bytes(tag, val)` logs `none` for an
absent key). -/
inductive QRes where
  | err (e : GoErr) (fields : List QF) (log : List LogE)
  | ok (fields : List QF) (log : List LogE)

def QRes.consF (f : QF) : QRes → QRes
  | .err e fs lg => .err e (f :: fs) lg
  | .ok fs lg => .ok (f :: fs) lg

def decodeURLQuery (query : String → Option String) (dateP : String → Except GoErr Nat) :
    List QF → List LogE → QRes
  | [], lg => .ok [] lg
  | QF.nested cs fs :: rest, lg =>
    if !cs then (decodeURLQuery query dateP rest lg).consF (.nested cs fs)
    else
      -- `if zc, err := decodeURLQuery(...); err != nil { return zc, err }`:
      -- the recursive zc is scoped to the `if`, so on success the outer zc
      -- is reused and the nested entries are dropped.
      match decodeURLQuery query dateP fs lg with
      | .err e fs' lg' => .err e (QF.nested cs fs' :: rest) lg'
      | .ok fs' _ => (decodeURLQuery query dateP rest lg).consF (.nested cs fs')
  | QF.leaf cs tag isPtr ptrNil nameD v :: rest, lg =>
    if !cs then (decodeURLQuery query dateP rest lg).consF (.leaf cs tag isPtr ptrNil nameD v)
    else if tag = "" then
      (decodeURLQuery query dateP rest lg).consF (.leaf cs tag isPtr ptrNil nameD v)
    else
      let qv := query tag
      let lg1 := lg ++ [(tag, qv)]
      match qv with
      | none => (decodeURLQuery query dateP rest lg1).consF (.leaf cs tag isPtr ptrNil nameD v)
      | some raw =>
        -- lazy pointer allocation happens before any parsing
        let pn := if isPtr && ptrNil then false else ptrNil
        let v1 := if isPtr && ptrNil then v.zero else v
        let keep := fun (v2 : FieldVal) =>
          (decodeURLQuery query dateP rest lg1).consF (.leaf cs tag isPtr pn nameD v2)
        let fail := fun (e : GoErr) =>
          QRes.err e (QF.leaf cs tag isPtr pn nameD v1 :: rest) lg1
        if nameD then
          match v1 with
          | .vdate _ =>
            match dateP raw with
            | .error e => fail e
            | .ok d => keep (.vdate d)
          | _ => keep v1
        else
          match v1 with
          | .vint _ =>
            match goParseInt raw with
            | .error pe => fail (.plain pe.text)
            | .ok i => keep (.vint i)
          | .vuint _ =>
            match goParseUint raw with
            | .error pe => fail (.plain pe.text)
            | .ok n => keep (.vuint n)
          | .vdate _ =>
            -- kind is Uint32: the plain uint path
            match goParseUint raw with
            | .error pe => fail (.plain pe.text)
            | .ok n => keep (.vdate n)
          | .vstr _ => keep (.vstr raw)
          | .vfloat _ =>
            match goParseFloat raw with
            | .error pe => fail (.plain pe.text)
            | .ok g => keep (.vfloat g)
          | .vbool _ =>
            match goParseBool raw with
            | .error pe => fail (.plain pe.text)
            | .ok b => keep (.vbool b)
          | .vstrList _ =>
            fail (.catched (validationFailed "unsupported type"))
          | .vother =>
            fail (.catched (validationFailed "unsupported type"))

/-- `decodeBody(ctx, dest)`: an empty raw body is the client error
`errors.InvalidRequestBody("empty request body. JSON expected")`; otherwise
the body is handed to `encoding/json.Unmarshal` (the collaborator
`unmarshal`), which populates the destination. -/
def decodeBody (unmarshal : String → List QF → Except GoErr (List QF))
    (body : String) (dest : List QF) : Except GoErr (List QF) :=
  if body.length = 0 then
    .error (.catched (invalidRequestBody "empty request body. JSON expected"))
  else unmarshal body dest

end Vatel

namespace Vatel

/-! ## The endpoint compile pass

`Endpoint.compile(v)` resolves one declared endpoint against the registry
configuration.  A controller factory is summarized by the capability set a
single throwaway instance reveals through type assertions, together with
the field-metadata trees the configured masker would build for its input
and result shapes (the masker's `Fields` is reflection over shapes that
live outside this model, so its outputs are carried as data). -/

structure Caps where
  isParamer : Bool
  isInputer : Bool
  isResulter : Bool
  deriving DecidableEq, Repr

structure EndpointDecl where
  Method : String
  Path : String
  Perms : List String
  LogOptions : Nat
  ResponseContentType : String
  Compress : Bool
  caps : Caps
  inputMaskFields : List JField
  resultMaskFields : List JField

/-- The registry state `compile` consults (`Vatel` plus its `Option`). -/
structure VatelCfg where
  urlPfx : String
  authSet : Bool
  tdSet : Bool
  pmSet : Bool
  pmBitPos : String → Option Nat
  authDisabled : Bool
  jmSet : Bool
  staticLoggingLevel : Bool
  verboseError : Bool
  logRequestID : Bool
  defaultLogOption : Nat

/-- The compiled descriptor fields `compile` produces. -/
structure CompiledMeta where
  Method : String
  Path : String
  permBits : List Nat
  responseContentType : String
  LogOptions : Nat
  isPathParametrized : Bool
  isURLQueryExpected : Bool
  isRequestBodyExpected : Bool
  hasRespBody : Bool
  resultFields : List JField
  inputFields : List JField

inductive CompileRes where
  | panicked (msg : String)
  | err (msg : String)
  | ok (c : CompiledMeta)

/-- `regexp \{(.*)\}` (with `(?s)`): the path matches iff some `{` is
followed, anywhere later, by some `}`. -/
def hasPlaceholder (s : String) : Bool :=
  ((s.data.dropWhile (· ≠ '{')).drop 1).any (· = '}')

/-- The permission-resolution loop: `for i := range e.Perms { pb, ok :=
v.pm.PermissionBitPos(e.Perms[i]); ... }`.  The loop runs whether or not
authorization is disabled; if the permission manager interface is nil the
method call dereferences a nil interface and panics. -/
def resolvePerms (v : VatelCfg) (em opath : String) : List String → List Nat → CompileRes ⊕ List Nat
  | [], acc => .inr acc.reverse
  | p :: rest, acc =>
    if !v.pmSet then
      .inl (.panicked "runtime error: invalid memory address or nil pointer dereference")
    else
      match v.pmBitPos p with
      | none => .inl (.err ("endpoint " ++ em ++ " " ++ opath ++ " mentioned unknown permission " ++ p))
      | some pb => resolvePerms v em opath rest (pb :: acc)

/-- The tail of `compile` after permission resolution: controller
introspection, the path/`Paramer` contract check, mask-field precompute,
and the method switch. -/
def compileTail (v : VatelCfg) (e : EndpointDecl) (opath newPath : String) (lo : Nat)
    (rct : String) (bits : List Nat) : CompileRes :=
  let isParamer := e.caps.isParamer
  let pathHasParam := hasPlaceholder newPath
  if !isParamer && pathHasParam then
    .err ("endpoint " ++ e.Method ++ " " ++ opath ++
      " path has parameters, but controller does not implement Paramer")
  else if isParamer && !pathHasParam then
    .err ("endpoint " ++ e.Method ++ " " ++ opath ++
      " path has no parameters, but controller implement Paramer")
  else
    let hasRespBody := e.caps.isResulter
    let resultFields := if hasRespBody && v.jmSet then e.resultMaskFields else []
    let isInputer := e.caps.isInputer
    let inputFields := if isInputer && v.jmSet then e.inputMaskFields else []
    if e.Method = "GET" ∨ e.Method = "DELETE" then
      .ok ⟨e.Method, newPath, bits, rct, lo, isParamer, isInputer, false, hasRespBody,
        resultFields, inputFields⟩
    else if e.Method = "POST" ∨ e.Method = "PUT" ∨ e.Method = "PATCH" then
      .ok ⟨e.Method, newPath, bits, rct, lo, isParamer, false, isInputer, hasRespBody,
        resultFields, inputFields⟩
    else
      .err ("endpoint " ++ opath ++ " has unknown HTTP method " ++ e.Method)

/-- `Endpoint.compile(v)` (vatel.go): join the prefix, default the log
options and content type, validate authorization wiring and permissions,
check the path/`Paramer` contract, and wire the method to query or body
decoding. -/
def compile (v : VatelCfg) (e : EndpointDecl) : CompileRes :=
  let opath := e.Path
  let newPath := goPathJoin v.urlPfx e.Path
  let lo := if e.LogOptions = 0 then v.defaultLogOption else e.LogOptions
  let rct := if e.ResponseContentType ≠ "" then e.ResponseContentType
    else "application/json; charset=utf-8"
  if e.Perms ≠ [] then
    if !v.authSet && !v.authDisabled then
      .err ("endpoint " ++ e.Method ++ " " ++ opath ++ " requires calling SetAuthorizer() before")
    else if !v.tdSet && !v.authDisabled then
      .err ("endpoint " ++ e.Method ++ " " ++ opath ++ " requires calling SetTokenDecode() before")
    else if !v.pmSet && !v.authDisabled then
      .err ("endpoint " ++ e.Method ++ " " ++ opath ++
        " requires calling SetPermissionManager() before")
    else
      match resolvePerms v e.Method opath e.Perms [] with
      | .inl r => r
      | .inr bits => compileTail v e opath newPath lo rct bits
  else compileTail v e opath newPath lo rct []

/-! ## `buildHandlers`: method normalization and registration order

`buildHandlers` upper-cases every method, then sorts the endpoint slice
with `sort.Slice` under the comparator `path, then method`, and registers
handlers in that order.  `sort.Slice`'s contract is to reorder the slice
into one sorted by the comparator; it is modelled by `mergeSort` under the
induced `≤`. -/

def epLess (a b : EndpointDecl) : Bool :=
  if a.Path = b.Path then goStrLt a.Method b.Method else goStrLt a.Path b.Path

def epLe (a b : EndpointDecl) : Bool := !epLess b a

/-- The endpoint order `buildHandlers` produces before compiling and
registering: upper-case the methods, then sort by `(path, method)`. -/
def buildOrder (eps : List EndpointDecl) : List EndpointDecl :=
  (eps.map (fun e => { e with Method := goToUpper e.Method })).mergeSort epLe

end Vatel

namespace Vatel

/-! ## The dispatcher (per-request pipeline)

The compiled handler closure, `Endpoint.handler`, modelled over: a request
(the parts of `fasthttp.RequestCtx` the code reads), a per-request context
(`VatelContext`: user values, token payload, and the response being
built), the endpoint's resolved collaborators (functions), and one fresh
controller instance.  Structured-log emission is external output and is
not part of the observable state except where the code's control flow
depends on it; metric and alarm invocations are recorded as traces
(durations and byte counts are real time / wire quantities and are left
out of the trace entries). -/

structure TokenPayload where
  user : Int
  login : String
  role : Int
  perms : List Nat
  debug : Bool

structure Token where
  payload : TokenPayload

structure Ctx where
  uv : List (String × GoVal)
  tokenPayload : Option TokenPayload
  status : Nat
  contentType : String
  body : String
  metrics : List (String × String × Nat)
  alarms : List String

structure Request where
  clientIP : String
  authHeader : String
  userValues : List (String × GoVal)
  query : String → Option String
  descriptionFlag : Bool
  body : String

/-- A controller result under `json.Marshal`: either a serializable value
or one that `Marshal` rejects. -/
inductive MVal where
  | jsonable (j : Json)
  | notSerializable (msg : String)

def goMarshal : MVal → Except GoErr String
  | .jsonable j => .ok (renderJson j)
  | .notSerializable m => .error (.plain m)

/-- One controller instance as produced by the `Controller` factory:
capability facets, the `Param()`/`Input()` destination structures, the
business logic, and the `Result()` accessor. -/
structure Controller where
  isParamer : Bool
  isInputer : Bool
  isResulter : Bool
  param : List PField
  input : List QF
  handle : Ctx → List PField → List QF → Ctx × Option GoErr
  result : List PField → List QF → Ctx → MVal

/-- External functions consumed through contracts: `json.Unmarshal`,
`json.Compact`, and the vendored date codec's `Parse`. -/
structure Ext where
  unmarshal : String → List QF → Except GoErr (List QF)
  compactJson : String → Except GoErr String
  dateParse : String → Except GoErr Nat

/-- The compiled endpoint as the dispatcher consumes it.  Interface-typed
collaborators are `Option`s (`none` = nil interface); `mrSet`/`alaSet`
flag the metric reporter and alarmer. -/
structure Endpoint where
  Method : String
  Path : String
  Perms : List String
  permBits : List Nat
  staticLoggingLevel : Bool
  verboseError : Bool
  logRequestID : Bool
  LogOptions : Nat
  responseContentType : String
  isPathParametrized : Bool
  isURLQueryExpected : Bool
  isRequestBodyExpected : Bool
  hasRespBody : Bool
  auth : Option (List Nat → List Nat → Except GoErr Bool)
  td : Option (String → Except GoErr Token)
  rtc : Option (String → Except GoErr Bool)
  jm : Option (String → List JField → Except String String)
  resultFields : List JField
  inputFields : List JField
  mrSet : Bool
  alaSet : Bool
  mwBeforeAuth : List (Ctx → Ctx × Option GoErr)
  mwAfterAuth : List (Ctx → Ctx × Option GoErr)
  mwOnSuccess : List (Ctx → Ctx × Option GoErr)

/-- `writeErrorResponse`: status from the catched error (500 otherwise), a
JSON error body appended through the body writer, a metric report with the
failing status, and an alarm for server-class statuses.  (The 429
`Retry-After` branch reads the catched error's attribute bag, which is not
part of the modelled error value.) -/
def writeErrorResponse (e : Endpoint) (ctx : Ctx) (verbose : Bool) (err : GoErr) : Ctx :=
  let statusCode := errStatus err
  let ctx := { ctx with
    contentType := "application/json; charset=utf-8",
    status := statusCode,
    body := ctx.body ++ renderJson (errorBodyJson err verbose) }
  let ctx :=
    if e.mrSet then { ctx with metrics := ctx.metrics ++ [(e.Method, e.Path, statusCode)] }
    else ctx
  if e.alaSet ∧ statusCode ≥ 500 then { ctx with alarms := ctx.alarms ++ [err.text] } else ctx

inductive AuthRes where
  | panicked (msg : String)
  | err (e : GoErr)
  | ok (t : Token)

/-- `Endpoint.authorize`: missing `Authorization` header, revoked-token
check, token decode, and the permission evaluation through the
authorizer.  Calling through a nil token-decoder or authorizer interface
panics. -/
def authorize (e : Endpoint) (req : Request) : AuthRes :=
  let at_ := req.authHeader
  if at_.length = 0 then .err (.catched ErrAuthorizationHeaderMissed)
  else
    let decodePhase : AuthRes :=
      match e.td with
      | none => .panicked "runtime error: invalid memory address or nil pointer dereference"
      | some td =>
        match td at_ with
        | .error err => .err (.catched { catchErr err with message := "unauthorized" })
        | .ok token =>
          match e.auth with
          | none => .panicked "runtime error: invalid memory address or nil pointer dereference"
          | some a =>
            match a token.payload.perms e.permBits with
            | .ok true => .ok token
            | .ok false => .err (.catched forbiddenErr)
            | .error err2 => .err (.catched { catchErr err2 with statusCode := 401 })
    match e.rtc with
    | none => decodePhase
    | some rtc =>
      match rtc at_ with
      | .error err => .err err
      | .ok true => .err (.catched ErrAccessTokenRevoked)
      | .ok false => decodePhase

def runMWs : List (Ctx → Ctx × Option GoErr) → Ctx → Ctx × Option GoErr
  | [], ctx => (ctx, none)
  | m :: ms, ctx =>
    match m ctx with
    | (ctx', some err) => (ctx', some err)
    | (ctx', none) => runMWs ms ctx'

/-- `genDescription` (the capability dumps are commented out in the
source, leaving only the header line). -/
def genDescription (e : Endpoint) : String :=
  "Endpoint description: " ++ e.Method ++ " -  " ++ e.Path

/-- The `LogReqBody` block of `initController`: `buf` is read from the
compaction buffer before `json.Compact` fills it, so whenever masking is
not performed the logged `requestBody` is the stale empty slice; a failed
mask logs the error and a nil buffer. -/
def logReqBodyEntries (e : Endpoint) (ext : Ext) (req : Request) (zc : List LogE) : List LogE :=
  match ext.compactJson req.body with
  | .ok compacted =>
    match e.jm, e.inputFields with
    | some mf, ifs@(_ :: _) =>
      match mf compacted ifs with
      | .ok masked => zc ++ [("maskedRequestBody", some masked)]
      | .error me => zc ++ [("maskingFailedMessage", some me), ("requestBody", none)]
    | _, _ => zc ++ [("requestBody", some "")]
  | .error ce => zc ++ [("maskingFailedMessage", some ce.text), ("requestBody", some "")]

inductive ICRes where
  | panicked (msg : String)
  | err (zc : List LogE) (e : GoErr) (c : Controller)
  | ok (zc : List LogE) (c : Controller)

def icParams (c : Controller) (uv : List (String × GoVal)) (zc : List LogE)
    (wanted : Bool) : ICRes :=
  if !wanted then .ok zc c
  else if !c.isParamer then
    .panicked "interface conversion: vatel.Handler is not vatel.Paramer"
  else
    match decodeParams uv c.param with
    | .panicked m _ _ => .panicked m
    | .err ce fs lg => .err (zc ++ lg) (.catched ce) { c with param := fs }
    | .ok fs lg => .ok (zc ++ lg) { c with param := fs }

def icQuery (c : Controller) (ext : Ext) (req : Request) (zc : List LogE)
    (wanted : Bool) : ICRes :=
  if !wanted then .ok zc c
  else if !c.isInputer then
    .panicked "interface conversion: vatel.Handler is not vatel.Inputer"
  else
    match decodeURLQuery req.query ext.dateParse c.input zc with
    | .err er fs lg => .err lg er { c with input := fs }
    | .ok fs lg => .ok lg { c with input := fs }

def icBody (e : Endpoint) (c : Controller) (ext : Ext) (req : Request) (lo : Nat)
    (zc : List LogE) (wanted : Bool) : ICRes :=
  if !wanted then .ok zc c
  else
    let zc := if lo &&& 8 = 8 then logReqBodyEntries e ext req zc else zc
    if !c.isInputer then
      .panicked "interface conversion: vatel.Handler is not vatel.Inputer"
    else
      match decodeBody ext.unmarshal req.body c.input with
      | .error er => .err zc er c
      | .ok fs =>
        let zc := if lo &&& 16 = 16 then zc ++ [("reqInput", some "<input>")] else zc
        .ok zc { c with input := fs }

/-- `initController`: instantiate the controller and decode path
parameters, then URL query or request body according to the compiled
flags. -/
def initController (e : Endpoint) (c : Controller) (ext : Ext) (req : Request)
    (uv : List (String × GoVal)) (lo : Nat) (zc : List LogE) : ICRes :=
  match icParams c uv zc e.isPathParametrized with
  | .panicked m => .panicked m
  | .err zc1 er c1 => .err zc1 er c1
  | .ok zc1 c1 =>
    match icQuery c1 ext req zc1 e.isURLQueryExpected with
    | .panicked m => .panicked m
    | .err zc2 er c2 => .err zc2 er c2
    | .ok zc2 c2 => icBody e c2 ext req lo zc2 e.isRequestBodyExpected

/-- `writeResponse`: marshal the result, set the content type, and write
the marshaled bytes; when response-body logging is on, the masked copy
goes only to the log — and in the branch with no masker or no mask fields
the function logs and returns without writing the body at all. -/
def writeResponse (e : Endpoint) (ctx : Ctx) (lo : Nat) (res : MVal) (zc : List LogE) :
    Ctx × List LogE × Option GoErr :=
  match goMarshal res with
  | .error err => (ctx, zc ++ [("result", some "<result>")], some err)
  | .ok buf =>
    let zc := if lo &&& 64 = 64 then zc ++ [("result", some "<result>")] else zc
    let ctx := { ctx with contentType := e.responseContentType }
    if !(lo &&& 32 = 32) then ({ ctx with body := ctx.body ++ buf }, zc, none)
    else
      match e.jm, e.resultFields with
      | some mf, rfs@(_ :: _) =>
        let masked :=
          match mf buf rfs with
          | .ok mb => mb
          | .error me => "\x7b\"maskingError\": \"" ++ me ++ "\"\x7d"
        ({ ctx with body := ctx.body ++ buf }, zc ++ [("maskedRespBody", some masked)], none)
      | _, _ => (ctx, zc ++ [("respBody", some buf)], none)

inductive HOut where
  | panicked (msg : String)
  | responded (ctx : Ctx) (controllerRan : Bool) (errored : Bool)

/-- The exit phase: the `LogExit` block's `msg = v.(string)` assertion on
the `"message"` user value (a panic when a non-string was stored there),
the success metric, and the on-success middlewares. -/
def exitPhase (e : Endpoint) (ctx : Ctx) (lo : Nat) (verbose : Bool) : HOut :=
  if lo &&& 4 = 4 ∧ lookupUV ctx.uv "message" = some GoVal.other then
    .panicked "interface conversion: interface \x7b\x7d is not string"
  else
    let ctx :=
      if e.mrSet then { ctx with metrics := ctx.metrics ++ [(e.Method, e.Path, 200)] } else ctx
    match runMWs e.mwOnSuccess ctx with
    | (ctx', some err) => .responded (writeErrorResponse e ctx' verbose err) true true
    | (ctx', none) => .responded ctx' true false

/-- The tail of `handler` after the authorization phase: the
`description` escape hatch, controller initialization and decoding,
after-authorization middlewares, the business logic, response writing,
and the exit phase. -/
def handlerRest (e : Endpoint) (c : Controller) (ext : Ext) (req : Request) (lo : Nat)
    (verbose : Bool) (zco zc : List LogE) (ctx : Ctx) : HOut :=
  if req.descriptionFlag then
    .responded ({ ctx with
      contentType := "text/html; charset=utf-8",
      body := ctx.body ++ genDescription e }) false false
  else
    match initController e c ext req ctx.uv lo zc with
    | .panicked m => .panicked m
    | .err _ er _ => .responded (writeErrorResponse e ctx verbose er) false true
    | .ok zc1 c1 =>
      match runMWs e.mwAfterAuth ctx with
      | (ctx, some err) => .responded (writeErrorResponse e ctx verbose err) false true
      | (ctx, none) =>
        -- the LogEnter block logs the accumulated attributes and resets zc
        let _zc2 := if lo &&& 2 = 2 then zco else zc1
        match c1.handle ctx c1.param c1.input with
        | (ctx, some err) => .responded (writeErrorResponse e ctx verbose err) true true
        | (ctx, none) =>
          if e.hasRespBody then
            if !c1.isResulter then
              .panicked "interface conversion: vatel.Handler is not vatel.Resulter"
            else
              match writeResponse e ctx lo (c1.result c1.param c1.input ctx) _zc2 with
              | (ctx', _, some err) =>
                .responded (writeErrorResponse e ctx' verbose err) true true
              | (ctx', _, none) => exitPhase e ctx' lo verbose
          else exitPhase e ctx lo verbose

/-- `Endpoint.handler`: the per-request dispatch closure. -/
def handler (e : Endpoint) (c : Controller) (ext : Ext) (req : Request) : HOut :=
  let verbose := e.verboseError
  -- static vs. atomically-loaded log options read the same modelled value
  let lo := e.LogOptions
  let zco : List LogE :=
    [("client", some req.clientIP)] ++ (if e.logRequestID then [("reqId", some "<id>")] else [])
  let zc := zco
  let ctx0 : Ctx := ⟨req.userValues, none, 200, "", "", [], []⟩
  match runMWs e.mwBeforeAuth ctx0 with
  | (ctx, some err) => .responded (writeErrorResponse e ctx verbose err) false true
  | (ctx, none) =>
    if e.Perms ≠ [] ∧ e.auth.isSome then
      let zc :=
        if e.Perms.length = 1 then zc ++ [("perm", some (e.Perms.headD ""))]
        else zc ++ [("perms", some (String.intercalate "," e.Perms))]
      match authorize e req with
      | .panicked m => .panicked m
      | .err err => .responded (writeErrorResponse e ctx verbose err) false true
      | .ok token =>
        let t := token.payload
        let ctx := { ctx with tokenPayload := some t }
        let verbose := verbose || t.debug
        handlerRest e c ext req lo verbose zco zc ctx
    else handlerRest e c ext req lo verbose zco zc ctx

end Vatel

namespace Vatel

/-! ## Statement helpers and concrete fixtures -/

def CompileRes.isOk : CompileRes → Bool
  | .ok _ => true
  | _ => false

def HOut.isPanic : HOut → Bool
  | .panicked _ => true
  | _ => false

def DPRes.isPanic : DPRes → Bool
  | .panicked _ _ _ => true
  | _ => false

/-- The `"message"` member of a JSON error body. -/
def jsonMessage : Json → Option String
  | .obj ms =>
    match ms.find? (fun kv => kv.1 = "message") with
    | some (_, .str s) => some s
    | _ => none
  | _ => none

/-- Whether a destination field has numeric or boolean Go type and its raw
value fails the corresponding `strconv` parse; carries the parse error. -/
def scalarParseErr (v : FieldVal) (raw : String) : Option NumErr :=
  match v with
  | .vint _ =>
    match goParseInt raw with
    | .error pe => some pe
    | .ok _ => none
  | .vuint _ =>
    match goParseUint raw with
    | .error pe => some pe
    | .ok _ => none
  | .vbool _ =>
    match goParseBool raw with
    | .error pe => some pe
    | .ok _ => none
  | .vfloat _ =>
    match goParseFloat raw with
    | .error pe => some pe
    | .ok _ => none
  | _ => none

/-- Iterated first-occurrence key deletion on an object (other values are
untouched) — the element-wise effect of the slice `"-"` directive. -/
def delKeys (ks : List String) (j : Json) : Json :=
  ks.foldl
    (fun b k =>
      match b with
      | .obj ms => .obj (objDelFirst k ms)
      | x => x) j

/-- The exposed names of the `"-"`-tagged element fields, in metadata
order. -/
def delTagNames (children : List JField) : List String :=
  (children.filter (fun f => f.tag = "-")).map JField.name

/-- Replace the first member with key `k`. -/
def objSetFirst (k : String) (v : Json) : List (String × Json) → List (String × Json)
  | [] => []
  | kv :: rest => if kv.1 = k then (kv.1, v) :: rest else kv :: objSetFirst k v rest

/-- A settable `FieldVal` whose Go type is `string`. -/
def FieldVal.isStr : FieldVal → Bool
  | .vstr _ => true
  | _ => false

/-! Fixtures for witnesses, counterexamples and bug evaluations. -/

/-- An empty registry configuration: nothing bound, no prefix. -/
def cfgEmpty : VatelCfg :=
  ⟨"", false, false, false, fun _ => none, false, false, false, false, false, 0⟩

/-- The registry with authorization globally disabled and no permission
manager bound. -/
def cfgDisabledAuth : VatelCfg := { cfgEmpty with authDisabled := true }

def capsNone : Caps := ⟨false, false, false⟩

/-- `GET /orders` declaring one permission. -/
def declOrders : EndpointDecl :=
  ⟨"GET", "/orders", ["orders:read"], 0, "", false, capsNone, [], []⟩

/-- `GET /customers/{id}` whose controller lacks `Paramer`. -/
def declCustomersId : EndpointDecl :=
  ⟨"GET", "/customers/{id}", [], 0, "", false, capsNone, [], []⟩

/-- A token whose payload carries permission bit 3. -/
def tokenFix : Token := ⟨⟨1, "alice", 2, [8], false⟩⟩

/-- External collaborator fixture: identity unmarshal/compact, failing
date parse. -/
def extFix : Ext := ⟨fun _ d => .ok d, fun s => .ok s, fun _ => .error (.plain "bad date")⟩

/-- A permission-bearing endpoint with authorizer and token decoder bound
and no other collaborators. -/
def epOrders : Endpoint :=
  ⟨"GET", "/orders", ["orders:read"], [3], false, false, false, 0,
    "application/json; charset=utf-8", false, false, false, false,
    some (fun _ _ => .ok true), some (fun _ => .ok tokenFix), none, none, [], [],
    false, false, [], [], []⟩

/-- A controller with no capabilities whose logic always succeeds. -/
def ctrlPlain : Controller :=
  ⟨false, false, false, [], [], fun ctx _ _ => (ctx, none), fun _ _ _ => .jsonable .null⟩

/-- A request with no `Authorization` header. -/
def reqNoAuth : Request := ⟨"10.0.0.1", "", [], fun _ => none, false, ""⟩

/-- A result-producing endpoint with response-body logging enabled
(`LogRespBody = 32`) and no masker bound. -/
def epLogNoMask : Endpoint :=
  ⟨"GET", "/orders", [], [], false, false, false, 32,
    "application/json; charset=utf-8", false, false, false, true,
    none, none, none, none, [], [], false, false, [], [], []⟩

/-- An endpoint expecting one path parameter. -/
def epParam : Endpoint :=
  ⟨"GET", "/customers/{id}", [], [], false, false, false, 0,
    "application/json; charset=utf-8", true, false, false, false,
    none, none, none, none, [], [], false, false, [], [], []⟩

/-- A `Paramer` controller whose `param` destination field `id` is typed
`int` — a non-string destination type. -/
def ctrlIntParam : Controller :=
  ⟨true, false, false, [⟨true, "id", .vint 0⟩], [],
    fun ctx _ _ => (ctx, none), fun _ _ _ => .jsonable .null⟩

/-- A request whose router-matched segment for `id` is the string `"7"`. -/
def reqId7 : Request := ⟨"10.0.0.1", "", [("id", .str "7")], fun _ => none, false, ""⟩

/-- A request context in whose user-value bag a middleware stored a
non-string value under the `"message"` key. -/
def ctxMsgOther : Ctx := ⟨[("message", GoVal.other)], none, 200, "", "", [], []⟩

/-- The reading of the `buildHandlers` comparator as a non-strict order on
`(path, method)` keys: strictly smaller path, or equal path and
method less-or-equal. -/
def epKeyLe (a b : EndpointDecl) : Prop :=
  goStrLt a.Path b.Path = true ∨
    (a.Path = b.Path ∧ (goStrLt a.Method b.Method = true ∨ a.Method = b.Method))

/-- Element-field metadata for the array-deletion scenario: `card` is
delete-masked, `id` is untagged. -/
def c9Children : List JField := [JField.mk "card" "-" [], JField.mk "id" "" []]

/-- A two-element array of order objects. -/
def c9Es : List Json :=
  [.obj [("card", .str "4111"), ("id", .num "1")],
   .obj [("id", .num "2"), ("card", .str "4222")]]

/-- A buffer whose `orders` member holds `c9Es`. -/
def c9Ms : List (String × Json) := [("total", .num "3"), ("orders", .arr c9Es)]

end Vatel

namespace Vatel

/-! # Theorems

Supporting lemmas first (the order theory of Go string comparison and the
frame/effect lemmas), then one theorem per claim, with a witness for each
theorem that carries hypotheses. -/

theorem char_eq_of_toNat_eq {a b : Char} (h : a.toNat = b.toNat) : a = b :=
  Char.eq_of_val_eq (UInt32.ext h)

theorem charsLt_irrefl : ∀ l : List Char, charsLt l l = false
  | [] => rfl
  | c :: cs => by simp [charsLt, charsLt_irrefl cs]

theorem charsLt_trans : ∀ a b c : List Char,
    charsLt a b = true → charsLt b c = true → charsLt a c = true := by
  intro a
  induction a with
  | nil =>
    intro b c hab hbc
    cases b with
    | nil => simp [charsLt] at hab
    | cons y ys =>
      cases c with
      | nil => simp [charsLt] at hbc
      | cons z zs => simp [charsLt]
  | cons x xs ih =>
    intro b c hab hbc
    cases b with
    | nil => simp [charsLt] at hab
    | cons y ys =>
      cases c with
      | nil => simp [charsLt] at hbc
      | cons z zs =>
        simp only [charsLt] at hab hbc ⊢
        by_cases h1 : x.toNat < y.toNat
        · by_cases h2 : y.toNat < z.toNat
          · simp [Nat.lt_trans h1 h2]
          · by_cases h3 : z.toNat < y.toNat
            · simp [h2, h3] at hbc
            · have hyz : y.toNat = z.toNat :=
                Nat.le_antisymm (Nat.le_of_not_lt h3) (Nat.le_of_not_lt h2)
              simp [hyz ▸ h1]
        · by_cases h1' : y.toNat < x.toNat
          · simp [h1, h1'] at hab
          · have hxy : x.toNat = y.toNat :=
              Nat.le_antisymm (Nat.le_of_not_lt h1') (Nat.le_of_not_lt h1)
            rw [if_neg h1, if_neg h1'] at hab
            by_cases h2 : y.toNat < z.toNat
            · rw [hxy]
              simp [h2]
            · by_cases h3 : z.toNat < y.toNat
              · simp [h2, h3] at hbc
              · rw [if_neg h2, if_neg h3] at hbc
                have hyz : y.toNat = z.toNat :=
                  Nat.le_antisymm (Nat.le_of_not_lt h3) (Nat.le_of_not_lt h2)
                rw [hxy, hyz]
                simp only [Nat.lt_irrefl, if_false]
                exact ih ys zs hab hbc

theorem charsLt_connex : ∀ a b : List Char, a ≠ b → charsLt a b = true ∨ charsLt b a = true
  | [], [], h => absurd rfl h
  | [], _ :: _, _ => by simp [charsLt]
  | _ :: _, [], _ => by simp [charsLt]
  | x :: xs, y :: ys, h => by
    by_cases hx : x.toNat < y.toNat
    · left; simp [charsLt, hx]
    · by_cases hy : y.toNat < x.toNat
      · right; simp [charsLt, hy]
      · have hxy : x = y := char_eq_of_toNat_eq
          (Nat.le_antisymm (Nat.le_of_not_lt hy) (Nat.le_of_not_lt hx))
        have hxs : xs ≠ ys := fun he => h (by rw [hxy, he])
        rcases charsLt_connex xs ys hxs with hc | hc
        · left; simp [charsLt, hxy, hc]
        · right; simp [charsLt, hxy, hc]

theorem charsLt_asymm {a b : List Char} (h : charsLt a b = true) : charsLt b a = false := by
  cases hh : charsLt b a
  · rfl
  · have := charsLt_trans a b a h hh
    rw [charsLt_irrefl] at this
    cases this

theorem goStrLt_trans {a b c : String} (h1 : goStrLt a b = true) (h2 : goStrLt b c = true) :
    goStrLt a c = true := charsLt_trans _ _ _ h1 h2

theorem goStrLt_connex {a b : String} (h : a ≠ b) : goStrLt a b = true ∨ goStrLt b a = true :=
  charsLt_connex _ _ (fun hd => h (by cases a; cases b; exact congrArg String.mk hd))

theorem goStrLt_asymm {a b : String} (h : goStrLt a b = true) : goStrLt b a = false :=
  charsLt_asymm h

theorem goStrLt_irrefl (a : String) : goStrLt a a = false := charsLt_irrefl a.data

theorem epLess_asymm {a b : EndpointDecl} (h : epLess a b = true) : epLess b a = false := by
  unfold epLess at h ⊢
  by_cases hp : a.Path = b.Path
  · rw [if_pos hp] at h
    rw [if_pos hp.symm]
    exact goStrLt_asymm h
  · rw [if_neg hp] at h
    rw [if_neg (fun he => hp he.symm)]
    exact goStrLt_asymm h

/-- The comparator of `buildHandlers` is total as a non-strict order. -/
theorem epLe_total (a b : EndpointDecl) : (epLe a b || epLe b a) = true := by
  simp only [epLe, Bool.or_eq_true, Bool.not_eq_true']
  cases h : epLess b a
  · exact Or.inl rfl
  · exact Or.inr (epLess_asymm h)

/-- `epLe` coincides with the key order on `(path, method)`. -/
theorem epLe_iff {a b : EndpointDecl} : epLe a b = true ↔ epKeyLe a b := by
  simp only [epLe, Bool.not_eq_true']
  unfold epLess epKeyLe
  by_cases hp : b.Path = a.Path
  · rw [if_pos hp]
    constructor
    · intro h
      refine Or.inr ⟨hp.symm, ?_⟩
      by_cases hm : a.Method = b.Method
      · exact Or.inr hm
      · rcases goStrLt_connex hm with h' | h'
        · exact Or.inl h'
        · rw [h'] at h
          cases h
    · intro h
      rcases h with h | ⟨_, hm⟩
      · rw [hp] at h
        rw [goStrLt_irrefl] at h
        cases h
      · rcases hm with hm | hm
        · exact goStrLt_asymm hm
        · rw [hm, goStrLt_irrefl]
  · rw [if_neg hp]
    constructor
    · intro h
      left
      rcases goStrLt_connex (fun he : a.Path = b.Path => hp he.symm) with h' | h'
      · exact h'
      · rw [h'] at h
        cases h
    · intro h
      rcases h with h | ⟨hpe, _⟩
      · exact goStrLt_asymm h
      · exact absurd hpe.symm hp

theorem epKeyLe_trans {a b c : EndpointDecl} (h1 : epKeyLe a b) (h2 : epKeyLe b c) :
    epKeyLe a c := by
  rcases h1 with h1 | ⟨hp1, hm1⟩
  · rcases h2 with h2 | ⟨hp2, _⟩
    · exact Or.inl (goStrLt_trans h1 h2)
    · exact Or.inl (hp2 ▸ h1)
  · rcases h2 with h2 | ⟨hp2, hm2⟩
    · left
      rw [hp1]
      exact h2
    · refine Or.inr ⟨hp1.trans hp2, ?_⟩
      rcases hm1 with hm1 | hm1
      · rcases hm2 with hm2 | hm2
        · exact Or.inl (goStrLt_trans hm1 hm2)
        · left
          rw [← hm2]
          exact hm1
      · rcases hm2 with hm2 | hm2
        · left
          rw [hm1]
          exact hm2
        · exact Or.inr (hm1.trans hm2)

theorem epLe_trans (a b c : EndpointDecl) (h1 : epLe a b = true) (h2 : epLe b c = true) :
    epLe a c = true :=
  epLe_iff.mpr (epKeyLe_trans (epLe_iff.mp h1) (epLe_iff.mp h2))

/-- **C5**: the compile pass orders all declared endpoints lexicographically
ascending by path, and by method for equal paths, before registration: the
registration order `buildOrder` is a permutation of the (method-uppercased)
declarations in which every earlier endpoint's `(path, method)` key is at
most every later one's — in particular, for two declarations with equal
path the one with the lexicographically smaller method comes first, so the
sort is deterministic in the sense the claim states. -/
theorem buildHandlers_sorted (eps : List EndpointDecl) :
    (buildOrder eps).Perm (eps.map (fun e => { e with Method := goToUpper e.Method })) ∧
    List.Pairwise epKeyLe (buildOrder eps) := by
  constructor
  · exact List.mergeSort_perm _ _
  · have hp := List.sorted_mergeSort epLe_trans epLe_total
      (eps.map (fun e => { e with Method := goToUpper e.Method }))
    exact hp.imp (fun h => epLe_iff.mp h)

theorem resolvePerms_inl (v : VatelCfg) (em opath : String) :
    ∀ ps acc r, resolvePerms v em opath ps acc = .inl r → r.isOk = false := by
  intro ps
  induction ps with
  | nil => intro acc r h; simp [resolvePerms] at h
  | cons p rest ih =>
    intro acc r h
    unfold resolvePerms at h
    split at h
    · cases h
      rfl
    · split at h
      · cases h
        rfl
      · exact ih _ r h

theorem compileTail_ok_agree (v : VatelCfg) (e : EndpointDecl) (opath newPath : String)
    (lo : Nat) (rct : String) (bits : List Nat)
    (h : (compileTail v e opath newPath lo rct bits).isOk = true) :
    hasPlaceholder newPath = e.caps.isParamer := by
  unfold compileTail at h
  cases hP : e.caps.isParamer <;> cases hH : hasPlaceholder newPath <;>
    simp [hP, hH, CompileRes.isOk] at h ⊢

theorem compile_ok_agree (v : VatelCfg) (e : EndpointDecl)
    (h : (compile v e).isOk = true) :
    hasPlaceholder (goPathJoin v.urlPfx e.Path) = e.caps.isParamer := by
  unfold compile at h
  repeat' split at h
  all_goals try simp [CompileRes.isOk] at h
  all_goals try exact compileTail_ok_agree _ _ _ _ _ _ _ h
  all_goals
    cases hr : resolvePerms v e.Method e.Path e.Perms [] with
    | inl r =>
      simp only [hr] at h
      have hf := resolvePerms_inl v e.Method e.Path e.Perms [] r hr
      cases r <;> simp_all [CompileRes.isOk]
    | inr bits =>
      simp only [hr] at h
      exact compileTail_ok_agree _ _ _ _ _ _ _ h

/-- **C1**: for every declared endpoint, compilation succeeds on the
path/controller contract only when `{...}`-placeholder presence (in the
prefix-joined path, as `compile` checks it) and the controller's `Paramer`
capability agree; whenever they disagree — placeholder without `Paramer`,
or `Paramer` without placeholder — `compile` does not succeed. -/
theorem compile_path_paramer_contract (v : VatelCfg) (e : EndpointDecl) :
    ((compile v e).isOk = true → hasPlaceholder (goPathJoin v.urlPfx e.Path) = e.caps.isParamer) ∧
    (hasPlaceholder (goPathJoin v.urlPfx e.Path) ≠ e.caps.isParamer →
      (compile v e).isOk = false) := by
  constructor
  · exact compile_ok_agree v e
  · intro hne
    cases hok : (compile v e).isOk
    · rfl
    · exact absurd (compile_ok_agree v e hok) hne

/-- Witness: `GET /customers/{id}` with a controller lacking `Paramer`
fails compilation. -/
theorem compile_path_paramer_contract_witness :
    hasPlaceholder (goPathJoin cfgEmpty.urlPfx declCustomersId.Path) ≠
      declCustomersId.caps.isParamer ∧
    (compile cfgEmpty declCustomersId).isOk = false :=
  ⟨by decide, (compile_path_paramer_contract cfgEmpty declCustomersId).2 (by decide)⟩

/-- **C2** (the code contradicts the claim's disabled-authorization
clause): with permissions declared, a nil authorizer/token-decoder/
permission-manager is a compile-time error when authorization is enabled —
but when authorization is globally disabled and the permission manager is
nil, the permission-resolution loop still calls through the nil interface
and compile panics instead of succeeding.  This theorem evaluates both
sides: the enabled-path compile error the claim describes, and the
disabled-path nil-dereference panic that contradicts it. -/
theorem compile_perm_collaborators_eval :
    compile cfgEmpty declOrders =
      .err "endpoint GET /orders requires calling SetAuthorizer() before" ∧
    compile cfgDisabledAuth declOrders =
      .panicked "runtime error: invalid memory address or nil pointer dereference" :=
  ⟨rfl, rfl⟩

/-- **C7 counterexample**: on an empty body `decodeBody` returns the
message `"empty request body. JSON expected"`, not the claimed
`"empty request body, structured data expected"`. -/
theorem decodeBody_message_counterexample :
    decodeBody extFix.unmarshal "" [] =
      .error (.catched ⟨"empty request body. JSON expected", "", 400⟩) ∧
    ("empty request body. JSON expected" : String) ≠
      "empty request body, structured data expected" :=
  ⟨rfl, by decide⟩

/-- **C7 (amended)**: for every request routed to body decoding with an
empty raw body, `decodeBody` returns the client error
`errors.InvalidRequestBody("empty request body. JSON expected")` — a
returned error, not a panic — and the destination is not populated (the
deserializer is never invoked, so no populated destination is produced). -/
theorem decodeBody_empty_body (um : String → List QF → Except GoErr (List QF))
    (body : String) (dest : List QF) (h : body.length = 0) :
    decodeBody um body dest =
      .error (.catched (invalidRequestBody "empty request body. JSON expected")) := by
  unfold decodeBody
  rw [if_pos h]

/-- Witness for the amended C7 at the empty body. -/
theorem decodeBody_empty_body_witness :
    ("" : String).length = 0 ∧
    decodeBody extFix.unmarshal "" [] =
      .error (.catched (invalidRequestBody "empty request body. JSON expected")) :=
  ⟨rfl, decodeBody_empty_body extFix.unmarshal "" [] rfl⟩

/-- **C4** (the code contradicts the claim): when response-body logging is
enabled (`LogRespBody`) and no masker (or an empty result-field set) is
configured, `writeResponse` logs the serialized result and returns without
writing it — the wire body stays empty even though serialization
succeeded.  Claimed behaviour: the serialized bytes are always written
regardless of masker configuration. -/
theorem writeResponse_skips_write_eval :
    goMarshal (MVal.jsonable (Json.obj [("x", Json.num "1")])) =
      .ok (renderJson (Json.obj [("x", Json.num "1")])) ∧
    writeResponse epLogNoMask ⟨[], none, 200, "", "", [], []⟩ 32
        (MVal.jsonable (Json.obj [("x", Json.num "1")])) [] =
      (⟨[], none, 200, "application/json; charset=utf-8", "", [], []⟩,
        [("respBody", some (renderJson (Json.obj [("x", Json.num "1")])))], none) :=
  ⟨rfl, rfl⟩

theorem runMWs_id (ms : List (Ctx → Ctx × Option GoErr))
    (h : ∀ m ∈ ms, ∀ ctx, m ctx = (ctx, none)) (ctx : Ctx) : runMWs ms ctx = (ctx, none) := by
  induction ms with
  | nil => rfl
  | cons m rest ih =>
    unfold runMWs
    rw [h m (by simp)]
    exact ih (fun m' hm' => h m' (by simp [hm']))

theorem writeErrorResponse_status (e : Endpoint) (ctx : Ctx) (v : Bool) (err : GoErr) :
    (writeErrorResponse e ctx v err).status = errStatus err := by
  unfold writeErrorResponse
  dsimp only
  split_ifs <;> rfl

theorem writeErrorResponse_body (e : Endpoint) (ctx : Ctx) (v : Bool) (err : GoErr) :
    (writeErrorResponse e ctx v err).body = ctx.body ++ renderJson (errorBodyJson err v) := by
  unfold writeErrorResponse
  dsimp only
  split_ifs <;> rfl

theorem authorize_missing_header (e : Endpoint) (req : Request) (hhdr : req.authHeader = "") :
    authorize e req = .err (.catched ErrAuthorizationHeaderMissed) := by
  unfold authorize
  rw [hhdr]
  rfl

/-- **C3**: for every request to an endpoint with a non-empty permission
list and a bound authorizer, whose before-authorization middlewares pass
the context through unchanged, if the `Authorization` header is absent the
dispatcher aborts before the controller runs (`controllerRan = false`) and
responds with status 401 and the JSON error body whose message is
`"header Authorization missed"`. -/
theorem handler_401_missing_header (e : Endpoint) (c : Controller) (ext : Ext) (req : Request)
    (hperm : e.Perms ≠ [])
    (hauth : e.auth.isSome = true)
    (hmw : ∀ m ∈ e.mwBeforeAuth, ∀ ctx, m ctx = (ctx, none))
    (hhdr : req.authHeader = "") :
    handler e c ext req =
      .responded
        (writeErrorResponse e ⟨req.userValues, none, 200, "", "", [], []⟩ e.verboseError
          (.catched ErrAuthorizationHeaderMissed)) false true ∧
    (writeErrorResponse e ⟨req.userValues, none, 200, "", "", [], []⟩ e.verboseError
        (.catched ErrAuthorizationHeaderMissed)).status = 401 ∧
    (writeErrorResponse e ⟨req.userValues, none, 200, "", "", [], []⟩ e.verboseError
        (.catched ErrAuthorizationHeaderMissed)).body =
      renderJson (errorBodyJson (.catched ErrAuthorizationHeaderMissed) e.verboseError) ∧
    jsonMessage (errorBodyJson (.catched ErrAuthorizationHeaderMissed) e.verboseError) =
      some "header Authorization missed" := by
  refine ⟨?_, ?_, ?_, ?_⟩
  · unfold handler
    dsimp only
    rw [runMWs_id e.mwBeforeAuth hmw]
    dsimp only
    rw [if_pos (show e.Perms ≠ [] ∧ e.auth.isSome = true from ⟨hperm, hauth⟩)]
    rw [authorize_missing_header e req hhdr]
  · exact writeErrorResponse_status _ _ _ _
  · exact writeErrorResponse_body _ _ _ _
  · cases hv : e.verboseError <;> rfl

/-- Witness for C3: `GET /orders` (permission-bearing, authorizer and
decoder bound, no middleware) and a request without the header. -/
theorem handler_401_missing_header_witness :
    epOrders.Perms ≠ [] ∧ epOrders.auth.isSome = true ∧ reqNoAuth.authHeader = "" ∧
    handler epOrders ctrlPlain extFix reqNoAuth =
      .responded
        (writeErrorResponse epOrders ⟨reqNoAuth.userValues, none, 200, "", "", [], []⟩
          epOrders.verboseError (.catched ErrAuthorizationHeaderMissed)) false true ∧
    jsonMessage (errorBodyJson (.catched ErrAuthorizationHeaderMissed) epOrders.verboseError) =
      some "header Authorization missed" :=
  ⟨by decide, rfl, rfl,
    (handler_401_missing_header epOrders ctrlPlain extFix reqNoAuth (by decide) rfl
      (by intro m hm; cases hm) rfl).1,
    (handler_401_missing_header epOrders ctrlPlain extFix reqNoAuth (by decide) rfl
      (by intro m hm; cases hm) rfl).2.2.2⟩

theorem DPRes.consF_ok_iff {f : PField} {r : DPRes} {fs : List PField} {lg : List LogE} :
    r.consF f = .ok fs lg ↔ ∃ fs', r = .ok fs' lg ∧ fs = f :: fs' := by
  cases r <;> simp [DPRes.consF] <;> aesop

theorem DPRes.consL_ok_iff {en : LogE} {r : DPRes} {fs : List PField} {lg : List LogE} :
    r.consL en = .ok fs lg ↔ ∃ lg', r = .ok fs lg' ∧ lg = en :: lg' := by
  cases r <;> simp [DPRes.consL] <;> aesop

theorem decodeParams_head_err (uv : List (String × GoVal)) (f : PField) (rest : List PField)
    (raw : String) (pe : NumErr)
    (hset : f.canSet = true) (htag : f.tag ≠ "")
    (hval : lookupUV uv f.tag = some (GoVal.str raw))
    (hfail : scalarParseErr f.val raw = some pe) :
    decodeParams uv (f :: rest) =
      .err (validationFailed pe.text) (f :: rest) [(f.tag, some raw)] := by
  obtain ⟨cs, tg, v⟩ := f
  simp only at hset htag hval hfail ⊢
  subst hset
  cases v with
  | vint i =>
    simp only [scalarParseErr] at hfail
    cases hp : goParseInt raw with
    | error pe' =>
      rw [hp] at hfail
      simp only [Option.some.injEq] at hfail
      subst hfail
      unfold decodeParams
      simp [htag, hval, hp]
    | ok x =>
      rw [hp] at hfail
      cases hfail
  | vuint n =>
    simp only [scalarParseErr] at hfail
    cases hp : goParseUint raw with
    | error pe' =>
      rw [hp] at hfail
      simp only [Option.some.injEq] at hfail
      subst hfail
      unfold decodeParams
      simp [htag, hval, hp]
    | ok x =>
      rw [hp] at hfail
      cases hfail
  | vbool b =>
    simp only [scalarParseErr] at hfail
    cases hp : goParseBool raw with
    | error pe' =>
      rw [hp] at hfail
      simp only [Option.some.injEq] at hfail
      subst hfail
      unfold decodeParams
      simp [htag, hval, hp]
    | ok x =>
      rw [hp] at hfail
      cases hfail
  | vfloat g =>
    simp only [scalarParseErr] at hfail
    cases hp : goParseFloat raw with
    | error pe' =>
      rw [hp] at hfail
      simp only [Option.some.injEq] at hfail
      subst hfail
      unfold decodeParams
      simp [htag, hval, hp]
    | ok x =>
      rw [hp] at hfail
      cases hfail
  | vstr s => cases hfail
  | vstrList l => cases hfail
  | vdate d => cases hfail
  | vother => cases hfail

theorem decodeParams_append_err (uv : List (String × GoVal)) (pre : List PField) :
    ∀ rest pre' lg er fs lg2,
      decodeParams uv pre = .ok pre' lg →
      decodeParams uv rest = .err er fs lg2 →
      decodeParams uv (pre ++ rest) = .err er (pre' ++ fs) (lg ++ lg2) := by
  induction pre with
  | nil =>
    intro rest pre' lg er fs lg2 h1 h2
    unfold decodeParams at h1
    cases h1
    simpa using h2
  | cons p pre2 ih =>
    intro rest pre' lg er fs lg2 h1 h2
    rw [List.cons_append]
    obtain ⟨cs, tg, v⟩ := p
    cases hcs : cs with
    | false =>
      subst hcs
      simp only [decodeParams, Bool.not_false, if_true] at h1 ⊢
      rw [DPRes.consF_ok_iff] at h1
      obtain ⟨fs', hr, hfs⟩ := h1
      subst hfs
      rw [ih _ _ _ _ _ _ hr h2]
      simp [DPRes.consF]
    | true =>
      subst hcs
      by_cases htg : tg = ""
      · subst htg
        simp only [decodeParams, Bool.not_true, Bool.false_eq_true, if_false, if_true] at h1 ⊢
        rw [DPRes.consF_ok_iff] at h1
        obtain ⟨fs', hr, hfs⟩ := h1
        subst hfs
        rw [ih _ _ _ _ _ _ hr h2]
        simp [DPRes.consF]
      · simp only [decodeParams, Bool.not_true, Bool.false_eq_true, if_false,
          if_neg htg] at h1 ⊢
        cases hlu : lookupUV uv tg with
        | none =>
          simp [hlu] at h1
        | some gv =>
          cases gv with
          | other => simp [hlu] at h1
          | str raw =>
            simp only [hlu] at h1
            try simp only [hlu]
            cases v with
            | vint i =>
              cases hp : goParseInt raw with
              | error pe => simp [hp] at h1
              | ok x =>
                simp only [hp] at h1
                try simp only [hp]
                rw [DPRes.consL_ok_iff] at h1
                obtain ⟨lg', hr, hlg⟩ := h1
                rw [DPRes.consF_ok_iff] at hr
                obtain ⟨fs', hr2, hfs⟩ := hr
                subst hfs; subst hlg
                rw [ih _ _ _ _ _ _ hr2 h2]
                simp [DPRes.consF, DPRes.consL]
            | vuint n =>
              cases hp : goParseUint raw with
              | error pe => simp [hp] at h1
              | ok x =>
                simp only [hp] at h1
                try simp only [hp]
                rw [DPRes.consL_ok_iff] at h1
                obtain ⟨lg', hr, hlg⟩ := h1
                rw [DPRes.consF_ok_iff] at hr
                obtain ⟨fs', hr2, hfs⟩ := hr
                subst hfs; subst hlg
                rw [ih _ _ _ _ _ _ hr2 h2]
                simp [DPRes.consF, DPRes.consL]
            | vstr s =>
              rw [DPRes.consL_ok_iff] at h1
              obtain ⟨lg', hr, hlg⟩ := h1
              rw [DPRes.consF_ok_iff] at hr
              obtain ⟨fs', hr2, hfs⟩ := hr
              subst hfs; subst hlg
              rw [ih _ _ _ _ _ _ hr2 h2]
              simp [DPRes.consF, DPRes.consL]
            | vbool b =>
              cases hp : goParseBool raw with
              | error pe => simp [hp] at h1
              | ok x =>
                simp only [hp] at h1
                try simp only [hp]
                rw [DPRes.consL_ok_iff] at h1
                obtain ⟨lg', hr, hlg⟩ := h1
                rw [DPRes.consF_ok_iff] at hr
                obtain ⟨fs', hr2, hfs⟩ := hr
                subst hfs; subst hlg
                rw [ih _ _ _ _ _ _ hr2 h2]
                simp [DPRes.consF, DPRes.consL]
            | vfloat g =>
              cases hp : goParseFloat raw with
              | error pe => simp [hp] at h1
              | ok x =>
                simp only [hp] at h1
                try simp only [hp]
                rw [DPRes.consL_ok_iff] at h1
                obtain ⟨lg', hr, hlg⟩ := h1
                rw [DPRes.consF_ok_iff] at hr
                obtain ⟨fs', hr2, hfs⟩ := hr
                subst hfs; subst hlg
                rw [ih _ _ _ _ _ _ hr2 h2]
                simp [DPRes.consF, DPRes.consL]
            | vstrList l =>
              rw [DPRes.consL_ok_iff] at h1
              obtain ⟨lg', hr, hlg⟩ := h1
              rw [DPRes.consF_ok_iff] at hr
              obtain ⟨fs', hr2, hfs⟩ := hr
              subst hfs; subst hlg
              rw [ih _ _ _ _ _ _ hr2 h2]
              simp [DPRes.consF, DPRes.consL]
            | vdate d => simp at h1
            | vother => simp at h1

theorem QRes.consQF_ok_iff {f : QF} {r : QRes} {fs : List QF} {lg : List LogE} :
    r.consF f = .ok fs lg ↔ ∃ fs', r = .ok fs' lg ∧ fs = f :: fs' := by
  cases r <;> simp [QRes.consF] <;> aesop

theorem scalarParseErr_zero (v : FieldVal) (raw : String) :
    scalarParseErr v.zero raw = scalarParseErr v raw := by
  cases v <;> rfl

theorem decodeURLQuery_head_err (q : String → Option String) (dp : String → Except GoErr Nat)
    (tag : String) (isPtr ptrNil : Bool) (v : FieldVal) (rest : List QF) (lg0 : List LogE)
    (raw : String) (pe : NumErr)
    (htag : tag ≠ "") (hq : q tag = some raw)
    (hfail : scalarParseErr v raw = some pe) :
    decodeURLQuery q dp (QF.leaf true tag isPtr ptrNil false v :: rest) lg0 =
      .err (.plain pe.text)
        (QF.leaf true tag isPtr (if isPtr && ptrNil then false else ptrNil) false
          (if isPtr && ptrNil then v.zero else v) :: rest)
        (lg0 ++ [(tag, some raw)]) := by
  unfold decodeURLQuery
  simp only [Bool.not_true, Bool.false_eq_true, if_false, htag, hq]
  cases hpp : (isPtr && ptrNil) with
  | false =>
    simp only [hpp, Bool.false_eq_true, if_false]
    cases v with
    | vint i =>
      simp only [scalarParseErr] at hfail
      cases hp : goParseInt raw with
      | error pe' =>
        rw [hp] at hfail
        simp only [Option.some.injEq] at hfail
        subst hfail
        simp [hp]
      | ok x => rw [hp] at hfail; cases hfail
    | vuint n =>
      simp only [scalarParseErr] at hfail
      cases hp : goParseUint raw with
      | error pe' =>
        rw [hp] at hfail
        simp only [Option.some.injEq] at hfail
        subst hfail
        simp [hp]
      | ok x => rw [hp] at hfail; cases hfail
    | vbool b =>
      simp only [scalarParseErr] at hfail
      cases hp : goParseBool raw with
      | error pe' =>
        rw [hp] at hfail
        simp only [Option.some.injEq] at hfail
        subst hfail
        simp [hp]
      | ok x => rw [hp] at hfail; cases hfail
    | vfloat g =>
      simp only [scalarParseErr] at hfail
      cases hp : goParseFloat raw with
      | error pe' =>
        rw [hp] at hfail
        simp only [Option.some.injEq] at hfail
        subst hfail
        simp [hp]
      | ok x => rw [hp] at hfail; cases hfail
    | vstr s => cases hfail
    | vstrList l => cases hfail
    | vdate d => cases hfail
    | vother => cases hfail
  | true =>
    simp only [hpp, if_true]
    rw [← scalarParseErr_zero v raw] at hfail
    cases v with
    | vint i =>
      simp only [FieldVal.zero] at hfail ⊢
      simp only [scalarParseErr] at hfail
      cases hp : goParseInt raw with
      | error pe' =>
        rw [hp] at hfail
        simp only [Option.some.injEq] at hfail
        subst hfail
        simp [hp]
      | ok x => rw [hp] at hfail; cases hfail
    | vuint n =>
      simp only [FieldVal.zero] at hfail ⊢
      simp only [scalarParseErr] at hfail
      cases hp : goParseUint raw with
      | error pe' =>
        rw [hp] at hfail
        simp only [Option.some.injEq] at hfail
        subst hfail
        simp [hp]
      | ok x => rw [hp] at hfail; cases hfail
    | vbool b =>
      simp only [FieldVal.zero] at hfail ⊢
      simp only [scalarParseErr] at hfail
      cases hp : goParseBool raw with
      | error pe' =>
        rw [hp] at hfail
        simp only [Option.some.injEq] at hfail
        subst hfail
        simp [hp]
      | ok x => rw [hp] at hfail; cases hfail
    | vfloat g =>
      simp only [FieldVal.zero] at hfail ⊢
      simp only [scalarParseErr] at hfail
      cases hp : goParseFloat raw with
      | error pe' =>
        rw [hp] at hfail
        simp only [Option.some.injEq] at hfail
        subst hfail
        simp [hp]
      | ok x => rw [hp] at hfail; cases hfail
    | vstr s => cases hfail
    | vstrList l => cases hfail
    | vdate d => cases hfail
    | vother => cases hfail

theorem decodeURLQuery_append_err (q : String → Option String) (dp : String → Except GoErr Nat)
    (pre : List QF) :
    ∀ rest lg0 pre' lg1 er fs lg2,
      decodeURLQuery q dp pre lg0 = .ok pre' lg1 →
      decodeURLQuery q dp rest lg1 = .err er fs lg2 →
      decodeURLQuery q dp (pre ++ rest) lg0 = .err er (pre' ++ fs) lg2 := by
  induction pre with
  | nil =>
    intro rest lg0 pre' lg1 er fs lg2 h1 h2
    unfold decodeURLQuery at h1
    cases h1
    simpa using h2
  | cons f pre2 ih =>
    intro rest lg0 pre' lg1 er fs lg2 h1 h2
    rw [List.cons_append]
    cases f with
    | nested cs fs0 =>
      cases hcs : cs with
      | false =>
        subst hcs
        simp only [decodeURLQuery, Bool.not_false, if_true] at h1 ⊢
        rw [QRes.consQF_ok_iff] at h1
        obtain ⟨fs', hr, hfs⟩ := h1
        subst hfs
        rw [ih _ _ _ _ _ _ _ hr h2]
        simp [QRes.consF]
      | true =>
        subst hcs
        simp only [decodeURLQuery, Bool.not_true, Bool.false_eq_true, if_false] at h1 ⊢
        cases hr0 : decodeURLQuery q dp fs0 lg0 with
        | err e' fsE lgE => simp [hr0] at h1
        | ok fsO lgO =>
          simp only [hr0] at h1 ⊢
          rw [QRes.consQF_ok_iff] at h1
          obtain ⟨fs', hr, hfs⟩ := h1
          subst hfs
          rw [ih _ _ _ _ _ _ _ hr h2]
          simp [QRes.consF]
    | leaf cs tag isPtr ptrNil nameD v =>
      cases hcs : cs with
      | false =>
        subst hcs
        simp only [decodeURLQuery, Bool.not_false, if_true] at h1 ⊢
        rw [QRes.consQF_ok_iff] at h1
        obtain ⟨fs', hr, hfs⟩ := h1
        subst hfs
        rw [ih _ _ _ _ _ _ _ hr h2]
        simp [QRes.consF]
      | true =>
        subst hcs
        by_cases htg : tag = ""
        · simp only [decodeURLQuery, Bool.not_true, Bool.false_eq_true, if_false, htg,
            if_true] at h1 ⊢
          rw [QRes.consQF_ok_iff] at h1
          obtain ⟨fs', hr, hfs⟩ := h1
          subst hfs
          rw [ih _ _ _ _ _ _ _ hr h2]
          simp [QRes.consF]
        · simp only [decodeURLQuery, Bool.not_true, Bool.false_eq_true, if_false,
            if_neg htg] at h1 ⊢
          cases hqv : q tag with
          | none =>
            simp only [hqv] at h1 ⊢
            rw [QRes.consQF_ok_iff] at h1
            obtain ⟨fs', hr, hfs⟩ := h1
            subst hfs
            rw [ih _ _ _ _ _ _ _ hr h2]
            simp [QRes.consF]
          | some raw =>
            simp only [hqv] at h1 ⊢
            cases hpp : (isPtr && ptrNil) with
            | false =>
              simp only [hpp, Bool.false_eq_true, if_false] at h1 ⊢
              cases hnd : nameD with
              | false =>
                subst hnd
                simp only [Bool.false_eq_true, eq_self_iff_true, if_false, if_true] at h1 ⊢
                cases v with
                | vint i =>
                  cases hp : goParseInt raw with
                  | error pe =>
                    simp [hp] at h1
                  | ok x =>
                    simp only [hp] at h1 ⊢
                    rw [QRes.consQF_ok_iff] at h1
                    obtain ⟨fs', hr, hfs⟩ := h1
                    subst hfs
                    rw [ih _ _ _ _ _ _ _ hr h2]
                    simp [QRes.consF]
                | vuint n =>
                  cases hp : goParseUint raw with
                  | error pe =>
                    simp [hp] at h1
                  | ok x =>
                    simp only [hp] at h1 ⊢
                    rw [QRes.consQF_ok_iff] at h1
                    obtain ⟨fs', hr, hfs⟩ := h1
                    subst hfs
                    rw [ih _ _ _ _ _ _ _ hr h2]
                    simp [QRes.consF]
                | vdate d =>
                  cases hp : goParseUint raw with
                  | error pe =>
                    simp [hp] at h1
                  | ok x =>
                    simp only [hp] at h1 ⊢
                    rw [QRes.consQF_ok_iff] at h1
                    obtain ⟨fs', hr, hfs⟩ := h1
                    subst hfs
                    rw [ih _ _ _ _ _ _ _ hr h2]
                    simp [QRes.consF]
                | vbool b =>
                  cases hp : goParseBool raw with
                  | error pe =>
                    simp [hp] at h1
                  | ok x =>
                    simp only [hp] at h1 ⊢
                    rw [QRes.consQF_ok_iff] at h1
                    obtain ⟨fs', hr, hfs⟩ := h1
                    subst hfs
                    rw [ih _ _ _ _ _ _ _ hr h2]
                    simp [QRes.consF]
                | vfloat g =>
                  cases hp : goParseFloat raw with
                  | error pe =>
                    simp [hp] at h1
                  | ok x =>
                    simp only [hp] at h1 ⊢
                    rw [QRes.consQF_ok_iff] at h1
                    obtain ⟨fs', hr, hfs⟩ := h1
                    subst hfs
                    rw [ih _ _ _ _ _ _ _ hr h2]
                    simp [QRes.consF]
                | vstr s =>
                  rw [QRes.consQF_ok_iff] at h1
                  obtain ⟨fs', hr, hfs⟩ := h1
                  subst hfs
                  rw [ih _ _ _ _ _ _ _ hr h2]
                  simp [QRes.consF]
                | vstrList l =>
                  simp at h1
                | vother =>
                  simp at h1
              | true =>
                subst hnd
                simp only [Bool.false_eq_true, eq_self_iff_true, if_false, if_true] at h1 ⊢
                cases v with
                | vdate d =>
                  cases hdp : dp raw with
                  | error e' =>
                    simp [hdp] at h1
                  | ok x =>
                    simp only [hdp] at h1 ⊢
                    rw [QRes.consQF_ok_iff] at h1
                    obtain ⟨fs', hr, hfs⟩ := h1
                    subst hfs
                    rw [ih _ _ _ _ _ _ _ hr h2]
                    simp [QRes.consF]
                | vint i =>
                  rw [QRes.consQF_ok_iff] at h1
                  obtain ⟨fs', hr, hfs⟩ := h1
                  subst hfs
                  rw [ih _ _ _ _ _ _ _ hr h2]
                  simp [QRes.consF]
                | vuint n =>
                  rw [QRes.consQF_ok_iff] at h1
                  obtain ⟨fs', hr, hfs⟩ := h1
                  subst hfs
                  rw [ih _ _ _ _ _ _ _ hr h2]
                  simp [QRes.consF]
                | vbool b =>
                  rw [QRes.consQF_ok_iff] at h1
                  obtain ⟨fs', hr, hfs⟩ := h1
                  subst hfs
                  rw [ih _ _ _ _ _ _ _ hr h2]
                  simp [QRes.consF]
                | vfloat g =>
                  rw [QRes.consQF_ok_iff] at h1
                  obtain ⟨fs', hr, hfs⟩ := h1
                  subst hfs
                  rw [ih _ _ _ _ _ _ _ hr h2]
                  simp [QRes.consF]
                | vstr s =>
                  rw [QRes.consQF_ok_iff] at h1
                  obtain ⟨fs', hr, hfs⟩ := h1
                  subst hfs
                  rw [ih _ _ _ _ _ _ _ hr h2]
                  simp [QRes.consF]
                | vstrList l =>
                  rw [QRes.consQF_ok_iff] at h1
                  obtain ⟨fs', hr, hfs⟩ := h1
                  subst hfs
                  rw [ih _ _ _ _ _ _ _ hr h2]
                  simp [QRes.consF]
                | vother =>
                  rw [QRes.consQF_ok_iff] at h1
                  obtain ⟨fs', hr, hfs⟩ := h1
                  subst hfs
                  rw [ih _ _ _ _ _ _ _ hr h2]
                  simp [QRes.consF]
            | true =>
              simp only [hpp, if_true] at h1 ⊢
              cases hnd : nameD with
              | false =>
                subst hnd
                simp only [Bool.false_eq_true, eq_self_iff_true, if_false, if_true] at h1 ⊢
                cases v with
                | vint i =>
                  simp only [FieldVal.zero] at h1 ⊢
                  cases hp : goParseInt raw with
                  | error pe =>
                    simp [hp] at h1
                  | ok x =>
                    simp only [hp] at h1 ⊢
                    rw [QRes.consQF_ok_iff] at h1
                    obtain ⟨fs', hr, hfs⟩ := h1
                    subst hfs
                    rw [ih _ _ _ _ _ _ _ hr h2]
                    simp [QRes.consF]
                | vuint n =>
                  simp only [FieldVal.zero] at h1 ⊢
                  cases hp : goParseUint raw with
                  | error pe =>
                    simp [hp] at h1
                  | ok x =>
                    simp only [hp] at h1 ⊢
                    rw [QRes.consQF_ok_iff] at h1
                    obtain ⟨fs', hr, hfs⟩ := h1
                    subst hfs
                    rw [ih _ _ _ _ _ _ _ hr h2]
                    simp [QRes.consF]
                | vdate d =>
                  simp only [FieldVal.zero] at h1 ⊢
                  cases hp : goParseUint raw with
                  | error pe =>
                    simp [hp] at h1
                  | ok x =>
                    simp only [hp] at h1 ⊢
                    rw [QRes.consQF_ok_iff] at h1
                    obtain ⟨fs', hr, hfs⟩ := h1
                    subst hfs
                    rw [ih _ _ _ _ _ _ _ hr h2]
                    simp [QRes.consF]
                | vbool b =>
                  simp only [FieldVal.zero] at h1 ⊢
                  cases hp : goParseBool raw with
                  | error pe =>
                    simp [hp] at h1
                  | ok x =>
                    simp only [hp] at h1 ⊢
                    rw [QRes.consQF_ok_iff] at h1
                    obtain ⟨fs', hr, hfs⟩ := h1
                    subst hfs
                    rw [ih _ _ _ _ _ _ _ hr h2]
                    simp [QRes.consF]
                | vfloat g =>
                  simp only [FieldVal.zero] at h1 ⊢
                  cases hp : goParseFloat raw with
                  | error pe =>
                    simp [hp] at h1
                  | ok x =>
                    simp only [hp] at h1 ⊢
                    rw [QRes.consQF_ok_iff] at h1
                    obtain ⟨fs', hr, hfs⟩ := h1
                    subst hfs
                    rw [ih _ _ _ _ _ _ _ hr h2]
                    simp [QRes.consF]
                | vstr s =>
                  simp only [FieldVal.zero] at h1 ⊢
                  rw [QRes.consQF_ok_iff] at h1
                  obtain ⟨fs', hr, hfs⟩ := h1
                  subst hfs
                  rw [ih _ _ _ _ _ _ _ hr h2]
                  simp [QRes.consF]
                | vstrList l =>
                  simp only [FieldVal.zero] at h1 ⊢
                  simp at h1
                | vother =>
                  simp only [FieldVal.zero] at h1 ⊢
                  simp at h1
              | true =>
                subst hnd
                simp only [Bool.false_eq_true, eq_self_iff_true, if_false, if_true] at h1 ⊢
                cases v with
                | vdate d =>
                  simp only [FieldVal.zero] at h1 ⊢
                  cases hdp : dp raw with
                  | error e' =>
                    simp [hdp] at h1
                  | ok x =>
                    simp only [hdp] at h1 ⊢
                    rw [QRes.consQF_ok_iff] at h1
                    obtain ⟨fs', hr, hfs⟩ := h1
                    subst hfs
                    rw [ih _ _ _ _ _ _ _ hr h2]
                    simp [QRes.consF]
                | vint i =>
                  simp only [FieldVal.zero] at h1 ⊢
                  rw [QRes.consQF_ok_iff] at h1
                  obtain ⟨fs', hr, hfs⟩ := h1
                  subst hfs
                  rw [ih _ _ _ _ _ _ _ hr h2]
                  simp [QRes.consF]
                | vuint n =>
                  simp only [FieldVal.zero] at h1 ⊢
                  rw [QRes.consQF_ok_iff] at h1
                  obtain ⟨fs', hr, hfs⟩ := h1
                  subst hfs
                  rw [ih _ _ _ _ _ _ _ hr h2]
                  simp [QRes.consF]
                | vbool b =>
                  simp only [FieldVal.zero] at h1 ⊢
                  rw [QRes.consQF_ok_iff] at h1
                  obtain ⟨fs', hr, hfs⟩ := h1
                  subst hfs
                  rw [ih _ _ _ _ _ _ _ hr h2]
                  simp [QRes.consF]
                | vfloat g =>
                  simp only [FieldVal.zero] at h1 ⊢
                  rw [QRes.consQF_ok_iff] at h1
                  obtain ⟨fs', hr, hfs⟩ := h1
                  subst hfs
                  rw [ih _ _ _ _ _ _ _ hr h2]
                  simp [QRes.consF]
                | vstr s =>
                  simp only [FieldVal.zero] at h1 ⊢
                  rw [QRes.consQF_ok_iff] at h1
                  obtain ⟨fs', hr, hfs⟩ := h1
                  subst hfs
                  rw [ih _ _ _ _ _ _ _ hr h2]
                  simp [QRes.consF]
                | vstrList l =>
                  simp only [FieldVal.zero] at h1 ⊢
                  rw [QRes.consQF_ok_iff] at h1
                  obtain ⟨fs', hr, hfs⟩ := h1
                  subst hfs
                  rw [ih _ _ _ _ _ _ _ hr h2]
                  simp [QRes.consF]
                | vother =>
                  simp only [FieldVal.zero] at h1 ⊢
                  rw [QRes.consQF_ok_iff] at h1
                  obtain ⟨fs', hr, hfs⟩ := h1
                  subst hfs
                  rw [ih _ _ _ _ _ _ _ hr h2]
                  simp [QRes.consF]

/-- **C6**: for every destination field of numeric or boolean type (int,
uint, bool, float — `scalarParseErr` captures exactly these kinds failing
their `strconv` parse) and every raw path or query value that fails to
parse, the decoder returns an error whose message is verbatim the original
parse error text (`decodeParams` wraps it in
`errors.ValidationFailed(err.Error())`; `decodeURLQuery` returns the parse
error itself), and never assigns a coerced or default value from the
failed parse to that field: the failing field appears in the post-call
destination with its prior value — for a query field behind a nil
pointer, with the type's zero value materialized by the lazy pointer
allocation that precedes parsing, never with anything derived from the
raw value.  Both parts position the failing field after an arbitrary
successfully-decoded prefix `pre`. -/
theorem decode_scalar_parse_failure :
    (∀ (uv : List (String × GoVal)) (pre rest : List PField) (f : PField) (raw : String)
        (pe : NumErr) (pre' : List PField) (lg : List LogE),
      decodeParams uv pre = .ok pre' lg →
      f.canSet = true → f.tag ≠ "" →
      lookupUV uv f.tag = some (GoVal.str raw) →
      scalarParseErr f.val raw = some pe →
      decodeParams uv (pre ++ f :: rest) =
        .err (validationFailed pe.text) (pre' ++ f :: rest) (lg ++ [(f.tag, some raw)])) ∧
    (∀ (q : String → Option String) (dp : String → Except GoErr Nat) (pre rest : List QF)
        (tag : String) (isPtr ptrNil : Bool) (v : FieldVal) (lg0 : List LogE)
        (pre' : List QF) (lg1 : List LogE) (raw : String) (pe : NumErr),
      decodeURLQuery q dp pre lg0 = .ok pre' lg1 →
      tag ≠ "" → q tag = some raw →
      scalarParseErr v raw = some pe →
      decodeURLQuery q dp (pre ++ QF.leaf true tag isPtr ptrNil false v :: rest) lg0 =
        .err (.plain pe.text)
          (pre' ++ QF.leaf true tag isPtr (if isPtr && ptrNil then false else ptrNil) false
            (if isPtr && ptrNil then v.zero else v) :: rest)
          (lg1 ++ [(tag, some raw)])) := by
  constructor
  · intro uv pre rest f raw pe pre' lg h1 hset htag hval hfail
    exact decodeParams_append_err uv pre (f :: rest) pre' lg _ _ _ h1
      (by
        obtain ⟨cs, tg, v⟩ := f
        simp only at hset
        subst hset
        exact decodeParams_head_err uv ⟨true, tg, v⟩ rest raw pe rfl htag hval hfail)
  · intro q dp pre rest tag isPtr ptrNil v lg0 pre' lg1 raw pe h1 htag hq hfail
    exact decodeURLQuery_append_err q dp pre _ lg0 pre' lg1 _ _ _ h1
      (decodeURLQuery_head_err q dp tag isPtr ptrNil v rest lg1 raw pe htag hq hfail)

/-- Witness for C6: an `int` path parameter `id` with raw value `"4x"`
after a successfully decoded field, and a `float64` query parameter `g`
with raw value `"xx"`. -/
theorem decode_scalar_parse_failure_witness :
    decodeParams [("a", GoVal.str "1"), ("id", GoVal.str "4x")]
        ([⟨true, "a", FieldVal.vint 0⟩] ++ [⟨true, "id", FieldVal.vint 7⟩]) =
      .err (validationFailed (NumErr.text ⟨"ParseInt", "4x", false⟩))
        ([⟨true, "a", FieldVal.vint 1⟩] ++ [⟨true, "id", FieldVal.vint 7⟩])
        ([("a", some "1")] ++ [("id", some "4x")]) ∧
    decodeURLQuery (fun t => if t = "g" then some "xx" else none)
        (fun _ => Except.error (GoErr.plain "d"))
        [QF.leaf true "g" false false false (FieldVal.vfloat ⟨"0"⟩)] [] =
      .err (.plain (NumErr.text ⟨"ParseFloat", "xx", false⟩))
        [QF.leaf true "g" false false false (FieldVal.vfloat ⟨"0"⟩)]
        [("g", some "xx")] :=
  ⟨decode_scalar_parse_failure.1 [("a", GoVal.str "1"), ("id", GoVal.str "4x")]
      [⟨true, "a", FieldVal.vint 0⟩] [] ⟨true, "id", FieldVal.vint 7⟩ "4x"
      ⟨"ParseInt", "4x", false⟩ [⟨true, "a", FieldVal.vint 1⟩] [("a", some "1")]
      (by decide) rfl (by decide) (by decide) (by decide),
    decode_scalar_parse_failure.2 (fun t => if t = "g" then some "xx" else none)
      (fun _ => Except.error (GoErr.plain "d")) [] [] "g" false false
      (FieldVal.vfloat ⟨"0"⟩) [] [] [] "xx" ⟨"ParseFloat", "xx", false⟩
      (by simp [decodeURLQuery]) (by decide) rfl (by decide)⟩

theorem heapRead_write_ne {h : List Json} {b i : Nat} {v : Json} (hne : i ≠ b) :
    heapRead (heapWrite h b v) i = heapRead h i := by
  unfold heapRead heapWrite
  rw [List.getD_eq_getElem?_getD, List.getD_eq_getElem?_getD,
    List.getElem?_set_ne (Ne.symm hne)]

theorem heapRead_append_left {h : List Json} {x : Json} {i : Nat} (hi : i < h.length) :
    heapRead (h ++ [x]) i = heapRead h i := by
  unfold heapRead
  rw [List.getD_eq_getElem?_getD, List.getD_eq_getElem?_getD,
    List.getElem?_append_left hi]

theorem sliceDelLoopH_frame (pa nm : String) (b : Nat) :
    ∀ (js : List Nat) (h : List Json) (i : Nat), i ≠ b →
      heapRead (sliceDelLoopH pa nm b js h).1 i = heapRead h i := by
  intro js
  induction js with
  | nil => intro h i hne; rfl
  | cons j js ih =>
    intro h i hne
    unfold sliceDelLoopH
    cases hd : jsonDelete (parsePath (pa ++ "." ++ toString j ++ "." ++ nm)) (heapRead h b) with
    | error e => rfl
    | ok v =>
      rw [ih _ _ hne]
      exact heapRead_write_ne hne

theorem maskLeafH_frame (jm : RawJsonMask) (pa attr : String) (f : JField) (sl : Bool)
    (h : List Json) (b i : Nat) (hne : i ≠ b) :
    heapRead (maskLeafH jm pa attr f sl h b).1 i = heapRead h i := by
  unfold maskLeafH
  split_ifs with h1 h2 h3
  · rfl
  · cases hd : jsonDelete (parsePath attr) (heapRead h b) with
    | error e => rfl
    | ok v => exact heapRead_write_ne hne
  · cases hg : jsonGet (parsePath (pa ++ ".#")) (heapRead h b) with
    | none => rfl
    | some n =>
      cases n with
      | num l => exact sliceDelLoopH_frame pa f.name b _ h i hne
      | null => rfl
      | bool x => rfl
      | str x => rfl
      | arr x => rfl
      | obj x => rfl
  · cases hl : jm.lookupFn f.tag with
    | none => rfl
    | some fn =>
      dsimp only
      cases hs : jsonSet (parsePath attr)
          (fn (resultString (jsonGet (parsePath attr) (heapRead h b)))) (heapRead h b) with
      | error e => rfl
      | ok v => exact heapRead_write_ne hne

theorem maskHeap_frame (jm : RawJsonMask) :
    ∀ (fs : List JField) (pa : String) (sl : Bool) (h : List Json) (b i : Nat), i ≠ b →
      heapRead (maskHeap jm fs pa sl h b).1 i = heapRead h i
  | [], _, _, h, b, i, hne => by rw [maskHeap]
  | .mk nm tg ch :: rest, pa, sl, h, b, i, hne => by
    rw [maskHeap]
    split
    · rcases hm : maskLeafH jm pa (if sl then pa ++ ".#." ++ nm else nm) (.mk nm tg ch) sl h b
        with ⟨h', e⟩
      have hf := maskLeafH_frame jm pa (if sl then pa ++ ".#." ++ nm else nm) (.mk nm tg ch)
        sl h b i hne
      rw [hm] at hf
      cases e with
      | some er => simpa using hf
      | none =>
        dsimp only
        rw [maskHeap_frame jm rest pa sl h' b i hne]
        exact hf
    · rcases hm : maskHeap jm ch (if sl then pa ++ ".#." ++ nm else nm) true h b with ⟨h', e⟩
      have hf := maskHeap_frame jm ch (if sl then pa ++ ".#." ++ nm else nm) true h b i hne
      rw [hm] at hf
      cases e with
      | some er => simpa using hf
      | none =>
        dsimp only
        rw [maskHeap_frame jm rest pa sl h' b i hne]
        exact hf


/-- **C10.** `Mask` never mutates its input: the masking pass allocates a
fresh destination buffer, copies the source bytes into it, and rewrites
only the copy — the source buffer is byte-for-byte unchanged after the
call and the returned destination buffer is distinct from the source. -/
theorem Mask_preserves_source (jm : RawJsonMask) (h : List Json) (src : Nat)
    (fields : List JField) (hs : src < h.length) :
    heapRead (MaskProg jm h src fields).1 src = heapRead h src ∧
    (MaskProg jm h src fields).2.1 ≠ src := by
  have hf : heapRead (maskHeap jm fields "" false (h ++ [heapRead h src]) h.length).1 src
      = heapRead h src := by
    rw [maskHeap_frame jm fields "" false (h ++ [heapRead h src]) h.length src
      (Nat.ne_of_lt hs)]
    exact heapRead_append_left hs
  refine ⟨?_, ?_⟩
  · unfold MaskProg
    dsimp only
    exact hf
  · unfold MaskProg
    dsimp only
    exact Nat.ne_of_gt hs

/-- Concrete check of `Mask_preserves_source`: a two-cell heap with the
source in cell 0 and one delete-masked field. -/
theorem Mask_preserves_source_witness :
    0 < [Json.null, Json.bool true].length ∧
    (heapRead (MaskProg ⟨[]⟩ [Json.null, Json.bool true] 0 [JField.mk "a" "-" []]).1 0
        = heapRead [Json.null, Json.bool true] 0 ∧
      (MaskProg ⟨[]⟩ [Json.null, Json.bool true] 0 [JField.mk "a" "-" []]).2.1 ≠ 0) :=
  ⟨by decide, Mask_preserves_source ⟨[]⟩ [Json.null, Json.bool true] 0 [JField.mk "a" "-" []]
    (by decide)⟩

/-! ### C9: slice `"-"` deletion removes the key from every array element -/

theorem delKeys_cons (k : String) (ks : List String) (j : Json) :
    delKeys (k :: ks) j = delKeys ks (delKeys [k] j) := rfl

theorem jsonDelete_key1 (cn : String) (e : Json) :
    jsonDelete [PathC.key cn] e = .ok (delKeys [cn] e) := by
  cases e <;> rfl

theorem listModAt_ok (f : Json → Except String Json) (g : Json → Json)
    (hf : ∀ e, f e = .ok (g e)) :
    ∀ (es : List Json) (n : Nat),
      listModAt n f es = .ok (es.set n (g (es.getD n .null)))
  | [], n => by cases n <;> rfl
  | e :: rest, 0 => by simp [listModAt, hf e, Except.map]
  | e :: rest, n + 1 => by
    simp [listModAt, listModAt_ok f g hf rest n, List.getD, Except.map]

theorem find?_key_eq {k : String} {ms : List (String × Json)} {kv : String × Json}
    (h : ms.find? (fun p => p.1 = k) = some kv) : kv.1 = k := by
  have := List.find?_some h
  simpa using this

theorem objModFirst_find (k : String) (f : Json → Except String Json) :
    ∀ (ms : List (String × Json)) (kv : String × Json) (v' : Json),
      ms.find? (fun p => p.1 = k) = some kv → f kv.2 = .ok v' →
      objModFirst k f ms = Except.ok (objSetFirst k v' ms)
  | [], kv, v', hfind, _ => by simp [List.find?] at hfind
  | p :: rest, kv, v', hfind, hf => by
    by_cases hp : p.1 = k
    · rw [List.find?_cons_of_pos _ (by simpa using hp)] at hfind
      cases hfind
      simp [objModFirst, objSetFirst, hp, hf, Except.map]
    · rw [List.find?_cons_of_neg _ (by simpa using hp)] at hfind
      simp [objModFirst, objSetFirst, hp, Except.map,
        objModFirst_find k f rest kv v' hfind hf]

theorem find?_objSetFirst (k : String) (v : Json) :
    ∀ (ms : List (String × Json)) (kv : String × Json),
      ms.find? (fun p => p.1 = k) = some kv →
      (objSetFirst k v ms).find? (fun p => p.1 = k) = some (kv.1, v)
  | [], kv, hfind => by simp [List.find?] at hfind
  | p :: rest, kv, hfind => by
    by_cases hp : p.1 = k
    · rw [List.find?_cons_of_pos _ (by simpa using hp)] at hfind
      cases hfind
      simp only [objSetFirst, if_pos hp]
      exact List.find?_cons_of_pos _ (by simpa using hp)
    · rw [List.find?_cons_of_neg _ (by simpa using hp)] at hfind
      simp only [objSetFirst, if_neg hp]
      rw [List.find?_cons_of_neg _ (by simpa using hp)]
      exact find?_objSetFirst k v rest kv hfind

theorem objSetFirst_objSetFirst (k : String) (v v' : Json) :
    ∀ ms : List (String × Json),
      objSetFirst k v' (objSetFirst k v ms) = objSetFirst k v' ms
  | [] => rfl
  | p :: rest => by
    by_cases hp : p.1 = k
    · simp [objSetFirst, hp]
    · simp [objSetFirst, hp, objSetFirst_objSetFirst k v v' rest]

theorem objSetFirst_self (k : String) :
    ∀ (ms : List (String × Json)) (v : Json),
      ms.find? (fun p => p.1 = k) = some (k, v) →
      objSetFirst k v ms = ms
  | [], v, hfind => by simp [List.find?] at hfind
  | p :: rest, v, hfind => by
    by_cases hp : p.1 = k
    · rw [List.find?_cons_of_pos _ (by simpa using hp)] at hfind
      cases hfind
      simp [objSetFirst]
    · rw [List.find?_cons_of_neg _ (by simpa using hp)] at hfind
      simp [objSetFirst, hp, objSetFirst_self k rest v hfind]

theorem foldlM_append_except {α β : Type} (f : β → α → Except String β) :
    ∀ (l l' : List α) (b : β),
      (l ++ l').foldlM f b =
        match l.foldlM f b with
        | .error e => .error e
        | .ok b' => l'.foldlM f b'
  | [], l', b => by simp [List.foldlM, pure, Except.pure]
  | a :: l, l', b => by
    simp only [List.cons_append, List.foldlM]
    cases hfa : f b a with
    | error e => rfl
    | ok b' =>
      simpa [Except.bind] using foldlM_append_except f l l' b'

theorem set_mapped_prefix (g : Json → Json) :
    ∀ (es : List Json) (n : Nat),
      ((es.take n).map g ++ es.drop n).set n
          (g (((es.take n).map g ++ es.drop n).getD n .null))
        = (es.take (n + 1)).map g ++ es.drop (n + 1)
  | [], n => by simp
  | e :: rest, 0 => by simp [List.getD]
  | e :: rest, n + 1 => by
    simpa [List.getD] using set_mapped_prefix g rest n

theorem sliceDelLoop_ok (nm cn : String) :
    ∀ (n : Nat) (ms : List (String × Json)) (es : List Json),
      ms.find? (fun p => p.1 = nm) = some (nm, .arr es) →
      (∀ j, j < n → parsePath (nm ++ "." ++ toString j ++ "." ++ cn)
          = [PathC.key nm, PathC.idx j, PathC.key cn]) →
      sliceDelLoop nm cn n (.obj ms) =
        .ok (.obj (objSetFirst nm
          (.arr ((es.take n).map (delKeys [cn]) ++ es.drop n)) ms))
  | 0, ms, es, hfind, _ => by
    simp [sliceDelLoop, List.range_zero, List.foldlM, pure, Except.pure,
      objSetFirst_self nm ms (.arr es) hfind]
  | n + 1, ms, es, hfind, hp => by
    have ih := sliceDelLoop_ok nm cn n ms es hfind (fun j hj => hp j (Nat.lt_succ_of_lt hj))
    unfold sliceDelLoop at ih ⊢
    rw [List.range_succ, foldlM_append_except, ih]
    simp only [List.foldlM]
    rw [hp n (Nat.lt_succ_self n)]
    have hfind' := find?_objSetFirst nm
      (.arr ((es.take n).map (delKeys [cn]) ++ es.drop n)) ms (nm, .arr es) hfind
    have hinner : jsonDelete [PathC.idx n, PathC.key cn]
        (Json.arr ((es.take n).map (delKeys [cn]) ++ es.drop n)) =
        .ok (.arr ((es.take (n + 1)).map (delKeys [cn]) ++ es.drop (n + 1))) := by
      show (listModAt n (jsonDelete [PathC.key cn]) _).map Json.arr = _
      rw [listModAt_ok (jsonDelete [PathC.key cn]) (delKeys [cn]) (jsonDelete_key1 cn),
        set_mapped_prefix]
      rfl
    show Except.bind (jsonDelete [PathC.key nm, PathC.idx n, PathC.key cn]
      (Json.obj (objSetFirst nm (.arr ((es.take n).map (delKeys [cn]) ++ es.drop n)) ms))) _ = _
    show Except.bind ((objModFirst nm (jsonDelete [PathC.idx n, PathC.key cn])
      (objSetFirst nm (.arr ((es.take n).map (delKeys [cn]) ++ es.drop n)) ms)).map Json.obj) _ = _
    rw [objModFirst_find nm _ _ _ _ hfind' hinner]
    simp [Except.bind, Except.map, pure, Except.pure, objSetFirst_objSetFirst]

theorem map_delKeys_nil (es : List Json) : es.map (delKeys []) = es := by
  induction es with
  | nil => rfl
  | cons e es ih => simp [delKeys, ih]

theorem maskVal_children (jm : RawJsonMask) (nm : String)
    (hcount : parsePath (nm ++ ".#") = [PathC.key nm, PathC.count]) :
    ∀ (children : List JField) (ms : List (String × Json)) (es : List Json),
      ms.find? (fun p => p.1 = nm) = some (nm, .arr es) →
      strToNatQ (toString es.length) = some es.length →
      (∀ f ∈ children, f.child = ([] : List JField) ∧
        (f.tag = "" ∨ f.tag = "-" ∨ jm.lookupFn f.tag = none)) →
      (∀ f ∈ children, ∀ j, j < es.length →
        parsePath (nm ++ "." ++ toString j ++ "." ++ f.name)
          = [PathC.key nm, PathC.idx j, PathC.key f.name]) →
      maskVal jm children nm true (.obj ms) =
        .ok (.obj (objSetFirst nm (.arr (es.map (delKeys (delTagNames children)))) ms))
  | [], ms, es, hfind, _, _, _ => by
    simp [maskVal, delTagNames, map_delKeys_nil, objSetFirst_self nm ms (.arr es) hfind]
  | ⟨cnm, ct, cch⟩ :: rest, ms, es, hfind, hrt, hch, hpaths => by
    obtain ⟨hchild, htag⟩ := hch _ (List.mem_cons_self _ _)
    simp only [JField.child] at hchild
    subst hchild
    by_cases ht0 : ct = ""
    · subst ht0
      have ih := maskVal_children jm nm hcount rest ms es hfind hrt
        (fun f hf => hch f (List.mem_cons_of_mem _ hf))
        (fun f hf => hpaths f (List.mem_cons_of_mem _ hf))
      simp [maskVal, maskLeaf, JField.tag, ih, delTagNames, List.filter]
    · by_cases ht1 : ct = "-"
      · subst ht1
        have hpf : ∀ j, j < es.length →
            parsePath (nm ++ "." ++ toString j ++ "." ++ cnm)
              = [PathC.key nm, PathC.idx j, PathC.key cnm] := by
          have := fun j hj => hpaths _ (List.mem_cons_self _ _) j hj
          simpa [JField.name] using this
        have hloop := sliceDelLoop_ok nm cnm es.length ms es hfind hpf
        rw [List.take_length, List.drop_length, List.append_nil] at hloop
        have hfind' := find?_objSetFirst nm (.arr (es.map (delKeys [cnm]))) ms
          (nm, .arr es) hfind
        have ih := maskVal_children jm nm hcount rest
          (objSetFirst nm (.arr (es.map (delKeys [cnm]))) ms) (es.map (delKeys [cnm]))
          (by simpa using hfind')
          (by rw [List.length_map]; exact hrt)
          (fun f hf => hch f (List.mem_cons_of_mem _ hf))
          (fun f hf j hj => hpaths f (List.mem_cons_of_mem _ hf) j
            (by simpa using hj))
        have hcomp : delKeys (delTagNames rest) ∘ delKeys [cnm]
            = delKeys (cnm :: delTagNames rest) :=
          funext fun e => (delKeys_cons cnm (delTagNames rest) e).symm
        simp only [maskVal, List.isEmpty_nil, if_true, maskLeaf, JField.tag, JField.name]
        rw [hcount]
        simp only [jsonGet, hfind, hrt]
        simp only [Bool.not_true, Bool.false_eq_true, if_false,
          reduceIte, Option.getD_some]
        have hdt : delTagNames (JField.mk cnm "-" [] :: rest) = cnm :: delTagNames rest := by
          simp [delTagNames, List.filter, JField.tag, JField.name]
        rw [hloop, if_neg (show ¬("-" = "") by decide)]
        show maskVal jm rest nm true
            (Json.obj (objSetFirst nm (Json.arr (List.map (delKeys [cnm]) es)) ms)) = _
        rw [ih, objSetFirst_objSetFirst, List.map_map, hcomp, hdt]
      · have hlk : jm.lookupFn ct = none := by
          rcases htag with h | h | h
          · exact absurd h ht0
          · exact absurd h ht1
          · exact h
        have ih := maskVal_children jm nm hcount rest ms es hfind hrt
          (fun f hf => hch f (List.mem_cons_of_mem _ hf))
          (fun f hf => hpaths f (List.mem_cons_of_mem _ hf))
        simp [maskVal, maskLeaf, JField.tag, ht0, ht1, hlk, ih, delTagNames, List.filter]

/-- **C9.** Deleting a `"-"`-masked field from a JSON array of objects
removes that key from every element: `Mask` on an object whose member
`nm` holds an array, with metadata whose element fields are leaves tagged
`""` (skip), `"-"` (delete) or unregistered (skip), rewrites the array to
the element-wise deletion of the `"-"`-tagged names, and the element
count and element order of the output array equal those of the input. -/
theorem Mask_array_dash_delete (jm : RawJsonMask) (nm tg : String)
    (children : List JField) (ms : List (String × Json)) (es : List Json)
    (hne : children ≠ [])
    (hfind : ms.find? (fun p => p.1 = nm) = some (nm, .arr es))
    (hcount : parsePath (nm ++ ".#") = [PathC.key nm, PathC.count])
    (hrt : strToNatQ (toString es.length) = some es.length)
    (hch : ∀ f ∈ children, f.child = ([] : List JField) ∧
      (f.tag = "" ∨ f.tag = "-" ∨ jm.lookupFn f.tag = none))
    (hpaths : ∀ f ∈ children, ∀ j, j < es.length →
      parsePath (nm ++ "." ++ toString j ++ "." ++ f.name)
        = [PathC.key nm, PathC.idx j, PathC.key f.name]) :
    Mask jm (.obj ms) [JField.mk nm tg children] =
      .ok (.obj (objSetFirst nm
        (.arr (es.map (delKeys (delTagNames children)))) ms)) ∧
    (es.map (delKeys (delTagNames children))).length = es.length := by
  have hie : children.isEmpty = false := by
    cases children with
    | nil => exact absurd rfl hne
    | cons a l => rfl
  have hmc := maskVal_children jm nm hcount children ms es hfind hrt hch hpaths
  refine ⟨?_, List.length_map es _⟩
  show maskVal jm [JField.mk nm tg children] "" false (.obj ms) = _
  simp only [maskVal, hie, Bool.false_eq_true, if_false, hmc]

/-- Concrete check of `Mask_array_dash_delete`: a two-element `orders`
array whose `card` member is delete-masked and whose `id` member is
untagged. -/
theorem Mask_array_dash_delete_witness :
    c9Children ≠ [] ∧
    (Mask ⟨[]⟩ (.obj c9Ms) [JField.mk "orders" "" c9Children] =
        .ok (.obj (objSetFirst "orders"
          (.arr (c9Es.map (delKeys (delTagNames c9Children)))) c9Ms)) ∧
      (c9Es.map (delKeys (delTagNames c9Children))).length = c9Es.length) :=
  ⟨List.cons_ne_nil _ _,
    Mask_array_dash_delete ⟨[]⟩ "orders" "" c9Children c9Ms c9Es
      (List.cons_ne_nil _ _) rfl (by decide) (by decide)
      (by
        intro f hf
        simp only [c9Children, List.mem_cons, List.mem_singleton,
          List.not_mem_nil, or_false] at hf
        rcases hf with h | h <;> subst h
        · exact ⟨rfl, Or.inr (Or.inl rfl)⟩
        · exact ⟨rfl, Or.inl rfl⟩)
      (by
        intro f hf j hj
        simp only [c9Children, List.mem_cons, List.mem_singleton,
          List.not_mem_nil, or_false] at hf
        simp only [c9Es, List.length_cons, List.length_nil] at hj
        interval_cases j <;> rcases hf with h | h <;> subst h <;> decide)⟩

/-! ### C8: the reachable dispatcher panics -/

theorem DPRes.consF_isPanic (f : PField) (d : DPRes) : (d.consF f).isPanic = d.isPanic := by
  cases d <;> rfl

theorem DPRes.consL_isPanic (en : LogE) (d : DPRes) : (d.consL en).isPanic = d.isPanic := by
  cases d <;> rfl

theorem decodeParams_nostring_nopanic (uv : List (String × GoVal)) :
    ∀ fields : List PField,
      (∀ g ∈ fields, g.canSet = true → g.tag ≠ "" →
        ∃ s, lookupUV uv g.tag = some (GoVal.str s)) →
      (decodeParams uv fields).isPanic = false
  | [], _ => rfl
  | g :: rest, hall => by
    have ih := decodeParams_nostring_nopanic uv rest
      (fun x hx => hall x (List.mem_cons_of_mem _ hx))
    by_cases hcs : g.canSet = true
    · by_cases htg : g.tag = ""
      · simp [decodeParams, hcs, htg, DPRes.consF_isPanic, ih]
      · obtain ⟨s, hs⟩ := hall g (List.mem_cons_self _ _) hcs htg
        simp only [decodeParams, hcs, Bool.not_true, Bool.false_eq_true, if_false,
          if_neg htg, hs]
        cases hv : g.val with
        | vint i =>
          cases hp : goParseInt s
          · simp [DPRes.isPanic]
          · simp [DPRes.consL_isPanic, DPRes.consF_isPanic, ih]
        | vuint n =>
          cases hp : goParseUint s
          · simp [DPRes.isPanic]
          · simp [DPRes.consL_isPanic, DPRes.consF_isPanic, ih]
        | vstr s0 => simp [DPRes.consL_isPanic, DPRes.consF_isPanic, ih]
        | vbool b =>
          cases hp : goParseBool s
          · simp [DPRes.isPanic]
          · simp [DPRes.consL_isPanic, DPRes.consF_isPanic, ih]
        | vfloat gf =>
          cases hp : goParseFloat s
          · simp [DPRes.isPanic]
          · simp [DPRes.consL_isPanic, DPRes.consF_isPanic, ih]
        | vstrList l => simp [DPRes.consF_isPanic, DPRes.consL_isPanic, ih]
        | vdate d => simp [DPRes.isPanic]
        | vother => simp [DPRes.isPanic]
    · have hcs' : g.canSet = false := by
        cases h : g.canSet
        · rfl
        · exact absurd h hcs
      simp [decodeParams, hcs', DPRes.consF_isPanic, ih]

/-- The dispatcher runs an int-typed (hence non-string) tagged settable
path-parameter destination field to completion without panicking: the
`decodeParams` panic does not fire on a non-string destination *type*,
contradicting the claim that it fires exactly when the field is typed as
something other than a string. -/
theorem handler_int_param_counterexample :
    (ctrlIntParam.param.all fun f => !f.val.isStr) = true ∧
    (handler epParam ctrlIntParam extFix reqId7).isPanic = false :=
  ⟨by decide, by decide⟩

/-- **C8** (corrected). The `decodeParams` invariant panic is about the
router-stored *user value*, not the destination field's Go type: it never
fires when every tagged settable field's user value is a string (whatever
the fields' Go types), and it fires with message `"non string param"`
exactly when the walk reaches a tagged settable field whose user value is
absent or not a string; moreover the dispatcher has a second panic site —
with `LogExit` enabled, the `v.(string)` assertion on the `"message"`
user value panics when a middleware stored a non-string there. -/
theorem dispatcher_panic_conditions (uv : List (String × GoVal)) (fields : List PField)
    (f : PField) (rest : List PField) (e : Endpoint) (ctx : Ctx) (lo : Nat) (verbose : Bool)
    (hall : ∀ g ∈ fields, g.canSet = true → g.tag ≠ "" →
      ∃ s, lookupUV uv g.tag = some (GoVal.str s))
    (hf : f.canSet = true) (ht : f.tag ≠ "")
    (hl : lookupUV uv f.tag = none ∨ lookupUV uv f.tag = some GoVal.other)
    (hlo : lo &&& 4 = 4) (hm : lookupUV ctx.uv "message" = some GoVal.other) :
    (decodeParams uv fields).isPanic = false ∧
    decodeParams uv (f :: rest) = .panicked "non string param" (f :: rest) [] ∧
    exitPhase e ctx lo verbose =
      .panicked "interface conversion: interface \x7b\x7d is not string" := by
  refine ⟨decodeParams_nostring_nopanic uv fields hall, ?_, ?_⟩
  · simp only [decodeParams, hf, Bool.not_true, Bool.false_eq_true, if_false, if_neg ht]
    rcases hl with h | h <;> rw [h]
  · simp only [exitPhase]
    rw [if_pos ⟨hlo, hm⟩]

/-- Concrete check of `dispatcher_panic_conditions`: an int-typed `id`
field whose user value is the string `"7"` decodes without panic; a
tagged field keyed `q` with no user value panics; a non-string
`"message"` user value under `LogExit` panics at the assertion. -/
theorem dispatcher_panic_conditions_witness :
    lookupUV [("id", GoVal.str "7")] "q" = none ∧
    ((decodeParams [("id", GoVal.str "7")] [⟨true, "id", .vint 0⟩]).isPanic = false ∧
      decodeParams [("id", GoVal.str "7")] [⟨true, "q", .vstr ""⟩] =
        .panicked "non string param" [⟨true, "q", .vstr ""⟩] [] ∧
      exitPhase epParam ctxMsgOther 4 false =
        .panicked "interface conversion: interface \x7b\x7d is not string") :=
  ⟨by decide,
    dispatcher_panic_conditions [("id", GoVal.str "7")] [⟨true, "id", FieldVal.vint 0⟩]
      ⟨true, "q", FieldVal.vstr ""⟩ [] epParam ctxMsgOther 4 false
      (by
        intro g hg
        simp only [List.mem_singleton] at hg
        subst hg
        intro _ _
        exact ⟨"7", rfl⟩)
      rfl (by decide) (Or.inl (by decide)) (by decide) (by decide)⟩
